import Mathlib

/-!
# Shared-memory SPSC ring of `darshana-v/pubsub`

A shallow embedding of `src/buffer/shm_publisher_improved.cpp` and
`src/buffer/shm_subscriber_improved.cpp` (with the publish / consume steps of the
plain `shm_publisher.cpp` / `shm_subscriber.cpp`).

The two `main` functions are embedded as step functions over an explicit program
counter: every step performs exactly one access to the shared region (one atomic
load, store or compare-exchange, or one slot field write) together with the local
computation that follows it.  A run of the system is a list of scheduler choices
(`Action`), so every interleaving of the two processes at the granularity of single
shared-memory accesses is a run.  Memory is sequentially consistent in this model;
the acquire / release annotations of the source are not represented.

`uint64_t` values are natural numbers reduced modulo `2 ^ 64` wherever the source
does arithmetic on them; `int` values of the backoff class are integers wrapped to
32 bits.

Three sequential parts follow the same sources: the region setup of both programs
over an explicit store of backing files (`producerAttach`, `consumerAttach`), the
statistics of the producer over exact rational samples (`summarize`,
`producerReport`), and `main` of `src/test_harness.cpp` with its argument parsing
(`harnessMain`). `Crowd` puts several publisher processes, each running `prodStep`,
on one region at the same time.
-/

set_option linter.unreachableTactic false
set_option linter.unusedTactic false
set_option linter.unusedVariables false
set_option maxRecDepth 100000

namespace Pubsub

/-! ## Constants and machine arithmetic -/

/-- Source constant `constexpr size_t MSG_SIZE = 64;`. -/
def MSG_SIZE : Nat := 64

/-- Source constant `constexpr size_t RING_SIZE = 1024;`. -/
def RING_SIZE : Nat := 1024

/-- Source constant `constexpr size_t MAX_BACKOFF = 1000;`. -/
def MAX_BACKOFF : Nat := 1000

/-- Modulus of `uint64_t` arithmetic, `2 ^ 64`. -/
def U64 : Nat := 18446744073709551616

/-- Subtraction of two `uint64_t` values (operands below `2 ^ 64`). -/
def u64sub (a b : Nat) : Nat := (a + U64 - b) % U64

/-- Increment of a `uint64_t` value. -/
def u64inc (a : Nat) : Nat := (a + 1) % U64

/-- Two's-complement wrap of an `int` (32-bit) result. -/
def wrapInt (x : Int) : Int := (x + 2147483648) % 4294967296 - 2147483648

/-! ## Data model -/

/-- Source `struct ShmMsg`: `seq`, `t_ns` and `MSG_SIZE - 16` payload bytes. -/
structure ShmMsg where
  seq : Nat
  t_ns : Nat
  payload : List Nat
deriving DecidableEq

/-- Source `struct ShmHeader` of the improved programs. -/
structure ShmHeader where
  head : Nat
  tail : Nat
  initialized : Bool
deriving DecidableEq

/-- The mapped region: the header followed by the slot array (`hdr`, `msgs`). -/
structure Region where
  hdr : ShmHeader
  msgs : Nat → ShmMsg

/-- Overwrite slot `idx` of the slot array. -/
def Region.setMsg (r : Region) (idx : Nat) (m : ShmMsg) : Region :=
  { r with msgs := fun j => if j = idx then m else r.msgs j }

/-- A zero-filled slot, as in a file just extended by `ftruncate`. -/
def zeroMsg : ShmMsg := { seq := 0, t_ns := 0, payload := List.replicate (MSG_SIZE - 16) 0 }

/-- The region of a newly created backing file: every byte is zero. -/
def freshRegion : Region :=
  { hdr := { head := 0, tail := 0, initialized := false }, msgs := fun _ => zeroMsg }

/-! ## ExponentialBackoff -/

/-- Source `class ExponentialBackoff`: two `int` fields. -/
structure ExponentialBackoff where
  current_delay : Int
  max_delay : Int
deriving DecidableEq

namespace ExponentialBackoff

/-- Constructor `ExponentialBackoff(int initial, int max)`. -/
def new (initial max : Int) : ExponentialBackoff :=
  { current_delay := initial, max_delay := max }

/-- Constructor with both defaults, `initial = 1`, `max = MAX_BACKOFF`. -/
def default : ExponentialBackoff := new 1 (MAX_BACKOFF : Int)

/-- The loop `for (int i = 0; i < current_delay; ++i) yield();` started at `i` with
`yields` calls already made; `fuel` bounds the number of iterations. -/
def yieldLoop (delay : Int) : Nat → Int → Nat → Nat
  | 0, _, yields => yields
  | fuel + 1, i, yields =>
      if i < delay then yieldLoop delay fuel (i + 1) (yields + 1) else yields

/-- Method `wait()`: the number of `yield()` calls made, and the waiter afterwards. -/
def wait (b : ExponentialBackoff) : Nat × ExponentialBackoff :=
  (yieldLoop b.current_delay b.current_delay.toNat 0 0,
   { b with current_delay := min (wrapInt (b.current_delay * 2)) b.max_delay })

/-- Method `reset()`. -/
def reset (b : ExponentialBackoff) : ExponentialBackoff :=
  { b with current_delay := 1 }

/-- A call made on a waiter. -/
inductive Call
  | wait
  | reset
deriving DecidableEq

/-- Apply one call. -/
def apply (b : ExponentialBackoff) : Call → ExponentialBackoff
  | Call.wait => (b.wait).2
  | Call.reset => b.reset

/-- Apply a sequence of calls, first call first. -/
def applyAll (b : ExponentialBackoff) (cs : List Call) : ExponentialBackoff :=
  cs.foldl apply b

end ExponentialBackoff

/-! ## The producer, `shm_publisher_improved.cpp` -/

/-- Program points of the producer's `main`, one per shared-memory access. -/
inductive PubPc
  /-- line 88, `initialized.compare_exchange_strong(expected, true)` -/
  | casInit
  /-- line 89, `head.store(0)` -/
  | initHead
  /-- line 90, `tail.store(0)` -/
  | initTail
  /-- line 101, `current_head = head.load()` -/
  | loadHead
  /-- lines 102-107, `current_tail = tail.load()`, the space check, `backoff.wait()` -/
  | loadTail
  /-- line 110, `idx = head.load() % RING_SIZE` -/
  | loadIdx
  /-- line 112, `m.seq = i` -/
  | writeSeq
  /-- line 113, `m.t_ns = now` -/
  | writeTs
  /-- line 116, the load in `head.load() + 1` -/
  | loadHeadInc
  /-- lines 116-117, `head.store(..)`, `backoff.reset()` -/
  | storeHead
  /-- lines 121-125, `current_tail = tail.load()`, test `current_tail > i` -/
  | waitTail
  /-- lines 129-131 and the loop increment, read of `m.t_ns`, `rtts.push_back` -/
  | sample
  /-- line 134 onwards, the loop has ended -/
  | done
deriving DecidableEq

/-- Local variables of the producer's `main`. -/
structure Producer where
  pc : PubPc
  count : Nat
  i : Nat
  current_head : Nat
  current_tail : Nat
  idx : Nat
  new_head : Nat
  backoff : ExponentialBackoff
  rtts : List Nat

/-- The loop test `i < (uint64_t)count` of line 98: where control goes next. -/
def loopTest (i count : Nat) : PubPc :=
  if i < count then PubPc.loadHead else PubPc.done

/-- The producer just after `mmap`, about to run line 87; `count` is the
non-negative value of `stoi(argv[2])`, converted by `(uint64_t)count`. -/
def Producer.start (count : Nat) : Producer :=
  { pc := PubPc.casInit, count := count % U64, i := 0, current_head := 0,
    current_tail := 0, idx := 0, new_head := 0,
    backoff := ExponentialBackoff.default, rtts := [] }

/-- One step of the producer; `cap` is `RING_SIZE`, `now` the value the clock
returns if this step reads it. Samples are kept in nanoseconds (the source divides
by `1000.0`). -/
def prodStep (cap now : Nat) (r : Region) (p : Producer) : Region × Producer :=
  match p.pc with
  | PubPc.casInit =>
      if r.hdr.initialized = false then
        ({ r with hdr := { r.hdr with initialized := true } }, { p with pc := PubPc.initHead })
      else
        (r, { p with pc := loopTest p.i p.count })
  | PubPc.initHead =>
      ({ r with hdr := { r.hdr with head := 0 } }, { p with pc := PubPc.initTail })
  | PubPc.initTail =>
      ({ r with hdr := { r.hdr with tail := 0 } }, { p with pc := loopTest p.i p.count })
  | PubPc.loadHead =>
      (r, { p with current_head := r.hdr.head, pc := PubPc.loadTail })
  | PubPc.loadTail =>
      if u64sub p.current_head r.hdr.tail < cap then
        (r, { p with current_tail := r.hdr.tail, pc := PubPc.loadIdx })
      else
        (r, { p with current_tail := r.hdr.tail, backoff := (p.backoff.wait).2,
                     pc := PubPc.loadHead })
  | PubPc.loadIdx =>
      (r, { p with idx := r.hdr.head % cap, pc := PubPc.writeSeq })
  | PubPc.writeSeq =>
      (r.setMsg p.idx { r.msgs p.idx with seq := p.i }, { p with pc := PubPc.writeTs })
  | PubPc.writeTs =>
      (r.setMsg p.idx { r.msgs p.idx with t_ns := now }, { p with pc := PubPc.loadHeadInc })
  | PubPc.loadHeadInc =>
      (r, { p with new_head := u64inc r.hdr.head, pc := PubPc.storeHead })
  | PubPc.storeHead =>
      ({ r with hdr := { r.hdr with head := p.new_head } },
       { p with backoff := p.backoff.reset, pc := PubPc.waitTail })
  | PubPc.waitTail =>
      if r.hdr.tail > p.i then
        (r, { p with current_tail := r.hdr.tail, pc := PubPc.sample })
      else
        (r, { p with current_tail := r.hdr.tail, backoff := (p.backoff.wait).2 })
  | PubPc.sample =>
      (r, { p with rtts := p.rtts ++ [u64sub now (r.msgs p.idx).t_ns],
                   i := u64inc p.i, pc := loopTest (u64inc p.i) p.count })
  | PubPc.done => (r, p)

/-! ## The consumer, `shm_subscriber_improved.cpp` -/

/-- Program points of the consumer's loop, one per shared-memory access. -/
inductive SubPc
  /-- line 83, `current_head = head.load()` -/
  | loadHead
  /-- lines 84-88 and 101, `current_tail = tail.load()`, the test, `idx`, `backoff.wait()` -/
  | loadTail
  /-- lines 92-98, `tail.store(current_tail + 1)`, the counter, `backoff.reset()` -/
  | storeTail
deriving DecidableEq

/-- Local variables of the consumer's `main`; `reports` lists the progress lines printed. -/
structure Consumer where
  pc : SubPc
  current_head : Nat
  current_tail : Nat
  idx : Nat
  processed_count : Nat
  backoff : ExponentialBackoff
  reports : List Nat

/-- The consumer just after `mmap`, about to enter the loop of line 81. -/
def Consumer.start : Consumer :=
  { pc := SubPc.loadHead, current_head := 0, current_tail := 0, idx := 0,
    processed_count := 0, backoff := ExponentialBackoff.default, reports := [] }

/-- One step of the consumer; `cap` is `RING_SIZE`. -/
def consStep (cap : Nat) (r : Region) (c : Consumer) : Region × Consumer :=
  match c.pc with
  | SubPc.loadHead =>
      (r, { c with current_head := r.hdr.head, pc := SubPc.loadTail })
  | SubPc.loadTail =>
      if r.hdr.tail < c.current_head then
        (r, { c with current_tail := r.hdr.tail, idx := r.hdr.tail % cap,
                     pc := SubPc.storeTail })
      else
        (r, { c with current_tail := r.hdr.tail, backoff := (c.backoff.wait).2,
                     pc := SubPc.loadHead })
  | SubPc.storeTail =>
      ({ r with hdr := { r.hdr with tail := u64inc c.current_tail } },
       { c with processed_count := u64inc c.processed_count,
                backoff := c.backoff.reset,
                reports := if u64inc c.processed_count % 1000 = 0
                           then c.reports ++ [u64inc c.processed_count] else c.reports,
                pc := SubPc.loadHead })

/-! ## The two processes over one region -/

/-- History of a region, kept only to state properties; no step reads it.
`published` lists the slot contents made visible by each store to `head`, in order;
`consumed` counts the stores to `tail` by consumers; `resets` counts the
compare-exchanges on `initialized` that succeeded. -/
structure History where
  published : List ShmMsg
  consumed : Nat
  resets : Nat

/-- The region, the live producer process, the live consumer process, the history. -/
structure System where
  region : Region
  prod : Producer
  cons : Consumer
  hist : History

/-- A scheduler choice: the producer or the consumer makes its next step, or a
process is terminated and launched again (`spawnProd count` runs the publisher
with `argv[2] = count`). -/
inductive Action
  | prod (now : Nat)
  | cons
  | spawnProd (count : Nat)
  | spawnCons

/-- History after a producer step taken in `s`. -/
def recordProd (s : System) : History :=
  match s.prod.pc with
  | PubPc.storeHead =>
      { s.hist with published := s.hist.published ++ [s.region.msgs s.prod.idx] }
  | PubPc.casInit =>
      if s.region.hdr.initialized = false then { s.hist with resets := s.hist.resets + 1 }
      else s.hist
  | _ => s.hist

/-- History after a consumer step taken in `s`. -/
def recordCons (s : System) : History :=
  match s.cons.pc with
  | SubPc.storeTail => { s.hist with consumed := s.hist.consumed + 1 }
  | _ => s.hist

/-- One transition of the system. -/
def step (cap : Nat) (s : System) : Action → System
  | Action.prod now =>
      { s with region := (prodStep cap now s.region s.prod).1,
               prod := (prodStep cap now s.region s.prod).2,
               hist := recordProd s }
  | Action.cons =>
      { s with region := (consStep cap s.region s.cons).1,
               cons := (consStep cap s.region s.cons).2,
               hist := recordCons s }
  | Action.spawnProd count => { s with prod := Producer.start count }
  | Action.spawnCons => { s with cons := Consumer.start }

/-- Run a schedule, first action first. -/
def run (cap : Nat) (s : System) (sched : List Action) : System :=
  sched.foldl (step cap) s

/-- A newly created region with the producer launched with `count` and the
consumer attached. -/
def init (count : Nat) : System :=
  { region := freshRegion, prod := Producer.start count, cons := Consumer.start,
    hist := { published := [], consumed := 0, resets := 0 } }

/-- The schedule has no process launch: one producer run and one consumer run. -/
def singleRun : List Action → Bool
  | [] => true
  | Action.prod _ :: rest => singleRun rest
  | Action.cons :: rest => singleRun rest
  | _ :: _ => false

/-! ## Invariant of the region and of the two processes -/

/-- Program points at which the producer has passed the space check of line 104
and not yet stored the new `head`. -/
def PubPc.publishing : PubPc → Bool
  | PubPc.loadIdx => true
  | PubPc.writeSeq => true
  | PubPc.writeTs => true
  | PubPc.loadHeadInc => true
  | PubPc.storeHead => true
  | _ => false

/-- Program points at which `idx` holds the slot being written. -/
def PubPc.hasIdx : PubPc → Bool
  | PubPc.writeSeq => true
  | PubPc.writeTs => true
  | PubPc.loadHeadInc => true
  | PubPc.storeHead => true
  | _ => false

/-- Program points inside the header reset of lines 89-90. -/
def PubPc.resetting : PubPc → Bool
  | PubPc.initHead => true
  | PubPc.initTail => true
  | _ => false

/-- What holds in every state reached from a new region while fewer than `2 ^ 64`
messages have been published. -/
structure Inv (cap : Nat) (s : System) : Prop where
  head_eq : s.region.hdr.head = s.hist.published.length
  tail_eq : s.region.hdr.tail = s.hist.consumed
  tail_le : s.region.hdr.tail ≤ s.region.hdr.head
  head_le : s.region.hdr.head ≤ s.region.hdr.tail + cap
  slots : ∀ j, s.region.hdr.tail ≤ j → j < s.region.hdr.head →
    s.hist.published[j]? = some (s.region.msgs (j % cap))
  flag_false : s.region.hdr.initialized = false →
    s.region.hdr.head = 0 ∧ s.hist.resets = 0
  flag_true : s.region.hdr.initialized = true → s.hist.resets = 1
  pFlag : s.prod.pc ≠ PubPc.casInit → s.region.hdr.initialized = true
  pReset : s.prod.pc.resetting = true → s.region.hdr.head = 0
  pHead : s.prod.pc = PubPc.loadTail → s.prod.current_head = s.region.hdr.head
  pSpace : s.prod.pc.publishing = true → s.region.hdr.head < s.region.hdr.tail + cap
  pIdx : s.prod.pc.hasIdx = true → s.prod.idx = s.region.hdr.head % cap
  pNew : s.prod.pc = PubPc.storeHead → s.prod.new_head = u64inc s.region.hdr.head
  cHead : s.cons.pc = SubPc.loadTail → s.cons.current_head ≤ s.region.hdr.head
  cTail : s.cons.pc = SubPc.storeTail →
    s.cons.current_tail = s.region.hdr.tail ∧ s.region.hdr.tail < s.region.hdr.head ∧
      s.cons.idx = s.region.hdr.tail % cap

/-! ## Invariant of one producer run -/

/-- Program points of the header initialisation, lines 87-91. -/
def PubPc.inInit : PubPc → Bool
  | PubPc.casInit => true
  | PubPc.initHead => true
  | PubPc.initTail => true
  | _ => false

/-- Program points inside the body of the `for` loop of line 98. -/
def PubPc.inLoop : PubPc → Bool
  | PubPc.casInit => false
  | PubPc.initHead => false
  | PubPc.initTail => false
  | PubPc.done => false
  | _ => true

/-- Program points between the store to `head` and the end of the iteration. -/
def PubPc.afterStore : PubPc → Bool
  | PubPc.waitTail => true
  | PubPc.sample => true
  | _ => false

/-- Program points at which `m.seq` of the current iteration has been written and
`head` not yet stored. -/
def PubPc.seqWritten : PubPc → Bool
  | PubPc.writeTs => true
  | PubPc.loadHeadInc => true
  | PubPc.storeHead => true
  | _ => false

/-- The value of `head` once the initialisation of lines 87-91 is over, for a
producer attaching to a region with `head = h0` and `initialized = ini0`. -/
def headBase (h0 : Nat) (ini0 : Bool) : Nat := if ini0 then h0 else 0

/-- What holds during one producer run launched with `count = n` on a region whose
header held `head = h0`, `initialized = ini0`; `sent` lists the messages the run has
published so far. -/
structure RunBody (n h0 : Nat) (ini0 : Bool) (s : System) (sent : List ShmMsg) : Prop where
  count_eq : s.prod.count = n
  len : sent.length = s.prod.i + (if s.prod.pc.afterStore = true then 1 else 0)
  rtts_len : s.prod.rtts.length = s.prod.i
  seqs : ∀ (j : Nat) (m : ShmMsg), sent[j]? = some m → m.seq = j
  init0 : s.prod.pc.inInit = true → s.prod.i = 0
  active : s.prod.pc.inLoop = true → s.prod.i < n
  fin : s.prod.pc = PubPc.done → s.prod.i = n
  slotSeq : s.prod.pc.seqWritten = true → (s.region.msgs s.prod.idx).seq = s.prod.i
  headOk : s.prod.pc.inInit = false → s.region.hdr.head = (headBase h0 ini0 + sent.length) % U64
  pNew : s.prod.pc = PubPc.storeHead → s.prod.new_head = u64inc s.region.hdr.head
  casHead : s.prod.pc = PubPc.casInit →
    s.region.hdr.head = h0 ∧ s.region.hdr.initialized = ini0
  initH : s.prod.pc = PubPc.initHead → ini0 = false
  initT : s.prod.pc = PubPc.initTail → ini0 = false ∧ s.region.hdr.head = 0

/-- The history of `s` extends the list `P0` by the messages of a run satisfying `RunBody`. -/
def RunInv (n h0 : Nat) (ini0 : Bool) (P0 : List ShmMsg) (s : System) : Prop :=
  ∃ sent, s.hist.published = P0 ++ sent ∧ RunBody n h0 ini0 s sent

/-- The schedule never launches a producer: it stays within one producer run. -/
def prodRun : List Action → Bool
  | [] => true
  | Action.spawnProd _ :: _ => false
  | _ :: rest => prodRun rest

/-- The schedule contains producer actions only (steps and launches). -/
def prodOnly : List Action → Bool
  | [] => true
  | Action.prod _ :: rest => prodOnly rest
  | Action.spawnProd _ :: rest => prodOnly rest
  | _ :: _ => false

/-! ## Concrete schedules -/

/-- The producer makes `k` steps in a row, reading `now` from the clock. -/
def prodSteps (k now : Nat) : List Action := List.replicate k (Action.prod now)

/-- The consumer makes `k` steps in a row. -/
def consSteps (k : Nat) : List Action := List.replicate k Action.cons

/-- One iteration of the producer loop with the consumer taking the message in
between: a publish (7 steps), a consume (3 steps), the wait and the sample (2 steps). -/
def roundTrip (now : Nat) : List Action := prodSteps 7 now ++ consSteps 3 ++ prodSteps 2 now

/-- The initialisation (3 steps) followed by `n` iterations, iteration `j` reading
clock value `100 + j`. -/
def fullRun (n : Nat) : List Action :=
  prodSteps 3 0 ++ ((List.range n).map fun j => roundTrip (100 + j)).flatten

/-- The run of 20 messages through the ring stopped when the consumer has passed
the test of line 86 for the last message. -/
def wrapSchedule : List Action := fullRun 19 ++ prodSteps 7 5 ++ consSteps 2

/-- No consumer step: a producer publishes one message, is launched again and
publishes a second one, is launched a third time and reads `head` on line 101. -/
def fullRing : List Action :=
  prodSteps 10 0 ++ [Action.spawnProd 1] ++ prodSteps 8 0 ++ [Action.spawnProd 1] ++ prodSteps 2 0

/-- The seven producer steps of one successful publish, lines 101-116; the clock
returns `t` at line 113 and `o` at every other step. -/
def publishSchedule (o t : Nat) : List Action := prodSteps 4 o ++ [Action.prod t] ++ prodSteps 2 o

/-! ## Publish and consume steps of `shm_publisher.cpp` and `shm_subscriber.cpp` -/

/-- Lines 69-75 of `shm_publisher.cpp`, reached once the busy-wait of line 68 has
ended: `idx = head % RING_SIZE; m.seq = i; m.t_ns = now; head++`. The header of the
plain programs has no `initialized` field; it is carried along unchanged. -/
def plainPublish (cap i now : Nat) (r : Region) : Region :=
  let idx := r.hdr.head % cap
  let r1 := r.setMsg idx { r.msgs idx with seq := i }
  let r2 := r1.setMsg idx { r1.msgs idx with t_ns := now }
  { r2 with hdr := { r2.hdr with head := u64inc r2.hdr.head } }

/-- Lines 51-56 of `shm_subscriber.cpp`: when `tail < head`, the slot index
`tail % RING_SIZE` and the region after `tail++`; otherwise nothing. -/
def plainConsume (cap : Nat) (r : Region) : Option (Nat × Region) :=
  if r.hdr.tail < r.hdr.head then
    some (r.hdr.tail % cap, { r with hdr := { r.hdr with tail := u64inc r.hdr.tail } })
  else none

/-! ## A second producer run on the region an earlier run left behind -/

/-- A producer with `count = 1` runs to completion on a new region while the
consumer takes its message; the producer is then launched again with `count = 1`,
loses the compare-exchange, publishes its message 0 (8 steps in all) and makes one
pass through its wait loop. The consumer takes no step during the second run. -/
def secondRun : List Action := fullRun 1 ++ [Action.spawnProd 1] ++ prodSteps 9 7

/-! ## Region setup, lines 65-81 of the producer and 63-71 of the consumer -/

/-- Size of `ShmMsg` in bytes: two `uint64_t` and `MSG_SIZE - 16` payload bytes. -/
def SLOT_BYTES : Nat := 8 + 8 + (MSG_SIZE - 16)

/-- Source `size_t total_size = sizeof(ShmHeader) + RING_SIZE * sizeof(ShmMsg)`;
`hdrBytes` stands for `sizeof(ShmHeader)`, which the ABI fixes. -/
def total_size (hdrBytes : Nat) : Nat := hdrBytes + RING_SIZE * SLOT_BYTES

/-- The backing objects: the size in bytes of the file at each path, if it exists. -/
structure Store where
  size : String → Option Nat

/-- No file exists. -/
def Store.empty : Store := { size := fun _ => none }

/-- The store with the file at `path` set to `bytes` bytes. -/
def Store.set (st : Store) (path : String) (bytes : Nat) : Store :=
  { size := fun q => if q = path then some bytes else st.size q }

/-- Which system calls the operating system makes fail for a reason of its own
(permissions, resources); a missing file is not among them. -/
structure Faults where
  openFails : Bool
  truncFails : Bool
  mmapFails : Bool
deriving DecidableEq

/-- No system call fails for a reason of its own. -/
def Faults.none : Faults := { openFails := false, truncFails := false, mmapFails := false }

/-- How a region setup ends: the region is mapped (`len` bytes of the file at
`path`), or the named call failed and `main` returned 1. -/
inductive Attach
  | mapped (path : String) (len : Nat)
  | failed (call : String)
deriving DecidableEq

/-- Lines 65-81 of `shm_publisher_improved.cpp` (the same as lines 38-54 of
`shm_publisher.cpp`): `open(name, O_CREAT | O_RDWR, 0600)`, `ftruncate(fd, total_size)`,
`mmap(.., total_size, .., MAP_SHARED, fd, 0)`; the store afterwards and the outcome. -/
def producerAttach (hdrBytes : Nat) (f : Faults) (arg : String) (st : Store) :
    Store × Attach :=
  if f.openFails then (st, Attach.failed "open")
  else if f.truncFails then
    ((if (st.size ("/tmp/" ++ arg)).isNone then st.set ("/tmp/" ++ arg) 0 else st),
      Attach.failed "ftruncate")
  else if f.mmapFails then
    (st.set ("/tmp/" ++ arg) (total_size hdrBytes), Attach.failed "mmap")
  else
    (st.set ("/tmp/" ++ arg) (total_size hdrBytes),
      Attach.mapped ("/tmp/" ++ arg) (total_size hdrBytes))

/-- Lines 63-71 of `shm_subscriber_improved.cpp` (the same as lines 35-42 of
`shm_subscriber.cpp`): `open(name, O_RDWR, 0600)`, which fails when the file does
not exist, then `mmap(.., total_size, .., MAP_SHARED, fd, 0)`; no `ftruncate`. -/
def consumerAttach (hdrBytes : Nat) (f : Faults) (arg : String) (st : Store) :
    Store × Attach :=
  if f.openFails || (st.size ("/tmp/" ++ arg)).isNone then (st, Attach.failed "open")
  else if f.mmapFails then (st, Attach.failed "mmap")
  else (st, Attach.mapped ("/tmp/" ++ arg) (total_size hdrBytes))

/-! ## Statistics, lines 134-150 of the producer (and 55-71 of `zmq_publisher.cpp`) -/

/-- The figures printed by lines 145-150. -/
structure Summary where
  count : Nat
  avg : ℚ
  median : ℚ
  p95 : ℚ
  p99 : ℚ
  one_way : ℚ
deriving DecidableEq

/-- Source `static_cast<size_t>(rtts.size() * 0.95)` (`pct = 95`) and
`.. * 0.99` (`pct = 99`), the product taken exactly: the floor of `n * pct / 100`. -/
def pctIndex (n pct : Nat) : Nat := n * pct / 100

/-- Source `sort(rtts.begin(), rtts.end())`: the samples in ascending order. -/
def sortSamples (rtts : List ℚ) : List ℚ := rtts.insertionSort (fun a b => a ≤ b)

/-- Lines 134-150 over exact numbers: the sum loop, the mean, the sort and the
three reads `rtts[..]`; the result is `none` when a read is out of bounds. -/
def summarize (rtts : List ℚ) : Option Summary :=
  match (sortSamples rtts)[rtts.length / 2]?, (sortSamples rtts)[pctIndex rtts.length 95]?,
      (sortSamples rtts)[pctIndex rtts.length 99]? with
  | some median, some p95, some p99 =>
      some { count := rtts.length,
             avg := rtts.foldl (fun acc v => acc + v) 0 / rtts.length,
             median := median, p95 := p95, p99 := p99,
             one_way := rtts.foldl (fun acc v => acc + v) 0 / rtts.length / 2 }
  | _, _, _ => none

/-! ## The test harness, `test_harness.cpp` lines 171-207 -/

/-- The C locale's `isspace`: space, and the characters 9 to 13. -/
def isSpace (c : Char) : Bool := c.toNat = 32 || (9 ≤ c.toNat && c.toNat ≤ 13)

/-- The value of the longest prefix of decimal digits, continuing from `acc`, and
whether at least one digit was read. -/
def readDigits : List Char → Nat → Bool → Nat × Bool
  | [], acc, seen => (acc, seen)
  | c :: cs, acc, seen =>
      if c.isDigit then readDigits cs (acc * 10 + (c.toNat - 48)) true else (acc, seen)

/-- Drop leading white space. -/
def skipSpaces : List Char → List Char
  | [] => []
  | c :: cs => if isSpace c then skipSpaces cs else c :: cs

/-- The signed value read after the white space: an optional sign, then digits;
`none` when no digit follows. -/
def readSigned : List Char → Option Int
  | '-' :: cs => if (readDigits cs 0 false).2 then some (-((readDigits cs 0 false).1 : Int)) else none
  | '+' :: cs => if (readDigits cs 0 false).2 then some ((readDigits cs 0 false).1 : Int) else none
  | cs => if (readDigits cs 0 false).2 then some ((readDigits cs 0 false).1 : Int) else none

/-- The library function `std::stoi(str)` in base 10: skips white space, reads an
optional sign and the decimal digits that follow, ignores the rest; `none` stands
for a thrown exception (`invalid_argument` when no digit is read, `out_of_range` when
the value is not an `int`). -/
def stoi (str : String) : Option Int :=
  match readSigned (skipSpaces str.toList) with
  | some v => if -2147483648 ≤ v ∧ v ≤ 2147483647 then some v else none
  | none => none

/-- Source `printUsage(prog)`: the lines written to standard output. -/
def printUsage (prog : String) : List String :=
  [ "Usage: " ++ prog ++ " [count] [warmup]",
    "  count:   Number of messages to send (default: 10000)",
    "  warmup:  Number of warmup messages (default: 1000)",
    "",
    "This test harness runs all three latency implementations:",
    "1. UDP ping-pong",
    "2. Shared Memory (SHM) ping-pong",
    "3. ZeroMQ REQ-REP ping-pong",
    "",
    "Make sure all executables are built and in the current directory." ]

/-- How `main` of the harness ends: an exception of `stoi` leaves `main` uncaught
(the process is terminated, nothing is printed, no exit code is returned); or the
usage text is printed and `main` returns 0; or the tests are run with the given
`count` and `warmup` and `main` returns 0. -/
inductive HarnessOutcome
  | threw
  | usage (text : List String)
  | ran (count warmup : Int)
deriving DecidableEq

/-- The usage text was printed. -/
def HarnessOutcome.isUsage : HarnessOutcome → Bool
  | HarnessOutcome.usage _ => true
  | _ => false

/-- Lines 184-207, `main` of the harness, on the argument vector `argv`
(`argc = argv.length`): the two `stoi` calls come first, the help test after them. -/
def harnessMain (argv : List String) : HarnessOutcome :=
  match (if argv.length > 1 then stoi (argv.getD 1 "") else some 10000) with
  | none => HarnessOutcome.threw
  | some count =>
    match (if argv.length > 2 then stoi (argv.getD 2 "") else some 1000) with
    | none => HarnessOutcome.threw
    | some warmup =>
      if argv.length > 1 ∧ (argv.getD 1 "" = "-h" ∨ argv.getD 1 "" = "--help") then
        HarnessOutcome.usage (printUsage (argv.getD 0 ""))
      else HarnessOutcome.ran count warmup

/-! ## The report of the producer, lines 130 and 134-150 -/

/-- Source `double rtt_us = (now_ns - m.t_ns) / 1000.0`, the division taken exactly:
the sample in microseconds of an elapsed time in nanoseconds. -/
def usOfNs (ns : Nat) : ℚ := (ns : ℚ) / 1000

/-- Lines 134-150 run on the samples the producer has collected: the figures it
prints, `count` first; `none` when a read `rtts[..]` is out of bounds, in which case
nothing is printed. -/
def producerReport (p : Producer) : Option Summary := summarize (p.rtts.map usOfNs)

/-! ## Several publishers alive at once -/

/-- One region with any number of publisher processes alive at the same time, one
consumer, and the history of the region. -/
structure Crowd where
  region : Region
  prods : List Producer
  cons : Consumer
  hist : History

/-- A scheduler choice: publisher number `k` makes its next step, or the consumer does. -/
inductive CrowdAction
  | prod (k now : Nat)
  | cons

/-- The system seen by one publisher `p` of the crowd. -/
def Crowd.view (c : Crowd) (p : Producer) : System :=
  { region := c.region, prod := p, cons := c.cons, hist := c.hist }

/-- One transition: the chosen process makes the step `step` gives it. A consumer
step does not depend on the publisher put in the view. -/
def crowdStep (cap : Nat) (c : Crowd) : CrowdAction → Crowd
  | CrowdAction.prod k now =>
      match c.prods[k]? with
      | none => c
      | some p =>
          { region := (step cap (c.view p) (Action.prod now)).region,
            prods := c.prods.set k (step cap (c.view p) (Action.prod now)).prod,
            cons := c.cons,
            hist := (step cap (c.view p) (Action.prod now)).hist }
  | CrowdAction.cons =>
      { region := (step cap (c.view (Producer.start 0)) Action.cons).region,
        prods := c.prods,
        cons := (step cap (c.view (Producer.start 0)) Action.cons).cons,
        hist := (step cap (c.view (Producer.start 0)) Action.cons).hist }

/-- Run a schedule of the crowd, first action first. -/
def crowdRun (cap : Nat) (c : Crowd) (sched : List CrowdAction) : Crowd :=
  sched.foldl (crowdStep cap) c

/-- A newly created region with one publisher launched for each entry of `counts`
and the consumer attached. -/
def crowdInit (counts : List Nat) : Crowd :=
  { region := freshRegion, prods := counts.map Producer.start, cons := Consumer.start,
    hist := { published := [], consumed := 0, resets := 0 } }

/-- Publisher `k` makes `n` steps in a row. -/
def crowdProd (k n now : Nat) : List CrowdAction := List.replicate n (CrowdAction.prod k now)

/-- The consumer makes `n` steps in a row. -/
def crowdCons (n : Nat) : List CrowdAction := List.replicate n CrowdAction.cons

/-- Two publishers on a new region. Publisher 0 wins the compare-exchange of line
88 and is then delayed. Publisher 1 loses it and publishes its message 0, which the
consumer takes; publisher 1 ends its wait, takes its sample and publishes its
message 1; the consumer reads `head = 2` and `tail = 1`. -/
def raceBeforeReset : List CrowdAction :=
  crowdProd 0 1 0 ++ crowdProd 1 8 5 ++ crowdCons 3 ++ crowdProd 1 2 6 ++ crowdProd 1 7 7 ++
    crowdCons 2

/-- The run `raceBeforeReset`, after which publisher 0 makes its two stores of lines
89-90 and the consumer then stores `tail = 2`. -/
def resetRace : List CrowdAction := raceBeforeReset ++ crowdProd 0 2 0 ++ crowdCons 1

/-! ## ExponentialBackoff: lemmas -/

namespace ExponentialBackoff

theorem yieldLoop_eq (delay : Int) (fuel : Nat) (i : Int) (yields : Nat) :
    yieldLoop delay fuel i yields = yields + min fuel (delay - i).toNat := by
  induction fuel generalizing i yields with
  | zero => simp [yieldLoop]
  | succ n ih =>
    unfold yieldLoop
    split
    · rw [ih]; omega
    · omega

theorem wait_yields (b : ExponentialBackoff) : (b.wait).1 = b.current_delay.toNat := by
  simp [wait, yieldLoop_eq]

theorem wait_delay (b : ExponentialBackoff) (h0 : 0 ≤ b.current_delay)
    (h1 : b.current_delay < 1073741824) :
    (b.wait).2.current_delay = min (2 * b.current_delay) b.max_delay := by
  have hw : wrapInt (b.current_delay * 2) = 2 * b.current_delay := by
    unfold wrapInt; omega
  simp [wait, hw]

theorem wait_max (b : ExponentialBackoff) : (b.wait).2.max_delay = b.max_delay := rfl

theorem applyAll_append (b : ExponentialBackoff) (cs ds : List Call) :
    applyAll b (cs ++ ds) = applyAll (applyAll b cs) ds := by
  simp [applyAll, List.foldl_append]

theorem applyAll_bounds (b : ExponentialBackoff) (cs : List Call)
    (hm : b.max_delay = 1000) (h1 : 1 ≤ b.current_delay) (h2 : b.current_delay ≤ 1000) :
    (applyAll b cs).max_delay = 1000 ∧ 1 ≤ (applyAll b cs).current_delay ∧
      (applyAll b cs).current_delay ≤ 1000 := by
  induction cs generalizing b with
  | nil => exact ⟨hm, h1, h2⟩
  | cons c cs ih =>
    cases c with
    | wait =>
      have hd := wait_delay b (by omega) (by omega)
      exact ih (b.wait).2 (by rw [wait_max, hm]) (by rw [hd, hm]; omega) (by rw [hd, hm]; omega)
    | reset => exact ih b.reset hm (by simp [reset]) (by simp [reset])

theorem waits_delay (b : ExponentialBackoff) (k : Nat)
    (hm : b.max_delay = 1000) (h1 : b.current_delay = 1) :
    (applyAll b (List.replicate k Call.wait)).max_delay = 1000 ∧
      (applyAll b (List.replicate k Call.wait)).current_delay = min ((2 : Int) ^ k) 1000 := by
  induction k with
  | zero => simp [applyAll, hm, h1]
  | succ n ih =>
    rw [List.replicate_succ', applyAll_append]
    obtain ⟨ihm, ihd⟩ := ih
    have hpos : (1 : Int) ≤ 2 ^ n := one_le_pow₀ (by norm_num)
    have hd := wait_delay (applyAll b (List.replicate n Call.wait)) (by omega) (by omega)
    refine ⟨by simpa [applyAll, apply, wait_max] using ihm, ?_⟩
    show ((applyAll b (List.replicate n Call.wait)).wait).2.current_delay = _
    rw [hd, ihm, ihd, pow_succ]
    omega

end ExponentialBackoff

/-! ## The region invariant is preserved -/

theorem mod_ne_of_lt {cap j h : Nat} (h1 : j < h) (h2 : h < j + cap) :
    j % cap ≠ h % cap := by
  intro heq
  have hd : cap ∣ h - j := (Nat.modEq_iff_dvd' (Nat.le_of_lt h1)).mp heq
  have := Nat.le_of_dvd (by omega) hd
  omega

theorem Inv.fresh (cap count : Nat) : Inv cap (init count) := by
  constructor <;> simp [init, freshRegion, Producer.start, Consumer.start,
    PubPc.resetting, PubPc.publishing, PubPc.hasIdx]

theorem Inv.step_cons {cap : Nat} {s : System} (h : Inv cap s)
    (hnw : s.hist.published.length < U64) : Inv cap (step cap s Action.cons) := by
  obtain ⟨h1, h2, h3, h4, h5, h6, h7, h15, h8, h9, h10, h11, h12, h13, h14⟩ := h
  obtain ⟨⟨⟨head, tail, ini⟩, msgs⟩, p, ⟨cpc, cch, cct, cidx, cn, cbo, crep⟩, ⟨pub, consd, resets⟩⟩ := s
  simp only at h1 h2 h3 h4 h5 h6 h7 h8 h9 h10 h11 h12 h13 h14 h15 hnw
  cases cpc
  · -- loadHead
    constructor <;> simp only [step, consStep, recordCons] <;>
      first | assumption | simp
  · -- loadTail
    by_cases hlt : tail < cch
    · have hch := h13 rfl
      constructor <;> simp only [step, consStep, recordCons, hlt, if_true] <;>
        first | assumption | simp
      omega
    · constructor <;> simp only [step, consStep, recordCons, hlt, if_false] <;>
        first | assumption | simp
  · -- storeTail
    obtain ⟨e1, e2, e3⟩ := h14 rfl
    have hinc : u64inc cct = tail + 1 := by
      unfold u64inc U64; unfold U64 at hnw; omega
    constructor <;> simp only [step, consStep, recordCons, hinc] <;>
      first | assumption | omega | simp | skip
    · intro j hj1 hj2; exact h5 j (by omega) hj2

theorem Inv.step_prod {cap : Nat} {s : System} (now : Nat) (h : Inv cap s)
    (hnw : (step cap s (Action.prod now)).hist.published.length < U64) :
    Inv cap (step cap s (Action.prod now)) := by
  obtain ⟨h1, h2, h3, h4, h5, h6, h7, h15, h8, h9, h10, h11, h12, h13, h14⟩ := h
  obtain ⟨⟨⟨head, tail, ini⟩, msgs⟩, ⟨pc, count, i, ch, ct, idx, nh, bo, rtts⟩, c, ⟨pub, consd, resets⟩⟩ := s
  simp only at h1 h2 h3 h4 h5 h6 h7 h8 h9 h10 h11 h12 h13 h14 h15
  cases pc
  case casInit =>
    cases ini
    · obtain ⟨e1, e2⟩ := h6 rfl
      constructor <;> simp only [step, prodStep, recordProd, if_true] <;>
        first | assumption | omega | (simp [PubPc.resetting, PubPc.publishing, PubPc.hasIdx]; done) | exact fun hx => (h6 hx).2 | exact fun hx => ⟨trivial, (h6 hx).2⟩ | exact fun _ => h15 (by decide) | (simp [PubPc.resetting, PubPc.publishing, PubPc.hasIdx]; first | assumption | omega) | skip
    · by_cases hlt : i < count
      · constructor <;> simp only [step, prodStep, recordProd, loopTest, hlt, if_true] <;>
          first | assumption | omega | (simp [PubPc.resetting, PubPc.publishing, PubPc.hasIdx]; done) | exact fun hx => (h6 hx).2 | exact fun hx => ⟨trivial, (h6 hx).2⟩ | exact fun _ => h15 (by decide) | (simp [PubPc.resetting, PubPc.publishing, PubPc.hasIdx]; first | assumption | omega) | skip
      · constructor <;> simp only [step, prodStep, recordProd, loopTest, hlt, if_false] <;>
          first | assumption | omega | (simp [PubPc.resetting, PubPc.publishing, PubPc.hasIdx]; done) | exact fun hx => (h6 hx).2 | exact fun hx => ⟨trivial, (h6 hx).2⟩ | exact fun _ => h15 (by decide) | (simp [PubPc.resetting, PubPc.publishing, PubPc.hasIdx]; first | assumption | omega) | skip
  case initHead =>
    have e1 : head = 0 := h8 rfl
    subst e1
    constructor <;> simp only [step, prodStep, recordProd] <;>
      first | assumption | omega | (simp [PubPc.resetting, PubPc.publishing, PubPc.hasIdx]; done) | exact fun hx => (h6 hx).2 | exact fun hx => ⟨trivial, (h6 hx).2⟩ | exact fun _ => h15 (by decide) | (simp [PubPc.resetting, PubPc.publishing, PubPc.hasIdx]; first | assumption | omega) | skip
  case initTail =>
    have e1 : head = 0 := h8 rfl
    have e2 : tail = 0 := by omega
    subst e1 e2
    by_cases hlt : i < count
    · constructor <;> simp only [step, prodStep, recordProd, loopTest, hlt, if_true] <;>
        first | assumption | omega | (simp [PubPc.resetting, PubPc.publishing, PubPc.hasIdx]; done) | exact fun hx => (h6 hx).2 | exact fun hx => ⟨trivial, (h6 hx).2⟩ | exact fun _ => h15 (by decide) | (simp [PubPc.resetting, PubPc.publishing, PubPc.hasIdx]; first | assumption | omega) | skip
    · constructor <;> simp only [step, prodStep, recordProd, loopTest, hlt, if_false] <;>
        first | assumption | omega | (simp [PubPc.resetting, PubPc.publishing, PubPc.hasIdx]; done) | exact fun hx => (h6 hx).2 | exact fun hx => ⟨trivial, (h6 hx).2⟩ | exact fun _ => h15 (by decide) | (simp [PubPc.resetting, PubPc.publishing, PubPc.hasIdx]; first | assumption | omega) | skip
  case loadHead =>
    constructor <;> simp only [step, prodStep, recordProd] <;>
      first | assumption | omega | (simp [PubPc.resetting, PubPc.publishing, PubPc.hasIdx]; done) | exact fun hx => (h6 hx).2 | exact fun hx => ⟨trivial, (h6 hx).2⟩ | exact fun _ => h15 (by decide) | (simp [PubPc.resetting, PubPc.publishing, PubPc.hasIdx]; first | assumption | omega) | skip
  case loadTail =>
    have e1 : ch = head := h9 rfl
    simp only [step, recordProd] at hnw
    have hsub : u64sub ch tail = head - tail := by
      unfold u64sub U64; unfold U64 at hnw; omega
    by_cases hlt : head - tail < cap
    · constructor <;> simp only [step, prodStep, recordProd, hsub, hlt, if_true] <;>
        first | assumption | omega | (simp [PubPc.resetting, PubPc.publishing, PubPc.hasIdx]; done) | exact fun hx => (h6 hx).2 | exact fun hx => ⟨trivial, (h6 hx).2⟩ | exact fun _ => h15 (by decide) | (simp [PubPc.resetting, PubPc.publishing, PubPc.hasIdx]; first | assumption | omega) | skip
    · constructor <;> simp only [step, prodStep, recordProd, hsub, hlt, if_false] <;>
        first | assumption | omega | (simp [PubPc.resetting, PubPc.publishing, PubPc.hasIdx]; done) | exact fun hx => (h6 hx).2 | exact fun hx => ⟨trivial, (h6 hx).2⟩ | exact fun _ => h15 (by decide) | (simp [PubPc.resetting, PubPc.publishing, PubPc.hasIdx]; first | assumption | omega) | skip
  case loadIdx =>
    have e1 := h10 rfl
    constructor <;> simp only [step, prodStep, recordProd] <;>
      first | assumption | omega | (simp [PubPc.resetting, PubPc.publishing, PubPc.hasIdx]; done) | exact fun hx => (h6 hx).2 | exact fun hx => ⟨trivial, (h6 hx).2⟩ | exact fun _ => h15 (by decide) | (simp [PubPc.resetting, PubPc.publishing, PubPc.hasIdx]; first | assumption | omega) | skip
  case writeSeq =>
    have e1 := h10 rfl
    have e2 : idx = head % cap := h11 rfl
    constructor <;> simp only [step, prodStep, recordProd, Region.setMsg] <;>
      first | assumption | omega | (simp [PubPc.resetting, PubPc.publishing, PubPc.hasIdx]; done) | exact fun hx => (h6 hx).2 | exact fun hx => ⟨trivial, (h6 hx).2⟩ | exact fun _ => h15 (by decide) | (simp [PubPc.resetting, PubPc.publishing, PubPc.hasIdx]; first | assumption | omega) | skip
    intro j hj1 hj2
    have hne : j % cap ≠ idx := by rw [e2]; exact mod_ne_of_lt hj2 (by omega)
    simp only [hne, if_false]
    exact h5 j hj1 hj2
  case writeTs =>
    have e1 := h10 rfl
    have e2 : idx = head % cap := h11 rfl
    constructor <;> simp only [step, prodStep, recordProd, Region.setMsg] <;>
      first | assumption | omega | (simp [PubPc.resetting, PubPc.publishing, PubPc.hasIdx]; done) | exact fun hx => (h6 hx).2 | exact fun hx => ⟨trivial, (h6 hx).2⟩ | exact fun _ => h15 (by decide) | (simp [PubPc.resetting, PubPc.publishing, PubPc.hasIdx]; first | assumption | omega) | skip
    intro j hj1 hj2
    have hne : j % cap ≠ idx := by rw [e2]; exact mod_ne_of_lt hj2 (by omega)
    simp only [hne, if_false]
    exact h5 j hj1 hj2
  case loadHeadInc =>
    have e1 := h10 rfl
    have e2 : idx = head % cap := h11 rfl
    constructor <;> simp only [step, prodStep, recordProd] <;>
      first | assumption | omega | (simp [PubPc.resetting, PubPc.publishing, PubPc.hasIdx]; done) | exact fun hx => (h6 hx).2 | exact fun hx => ⟨trivial, (h6 hx).2⟩ | exact fun _ => h15 (by decide) | (simp [PubPc.resetting, PubPc.publishing, PubPc.hasIdx]; first | assumption | omega) | skip
  case storeHead =>
    have e1 := h10 rfl
    have e2 : idx = head % cap := h11 rfl
    have e3 : nh = u64inc head := h12 rfl
    simp only [step, recordProd, List.length_append, List.length_singleton] at hnw
    have e4 : nh = head + 1 := by
      rw [e3]; unfold u64inc U64; unfold U64 at hnw; omega
    subst e4
    constructor <;> simp only [step, prodStep, recordProd] <;>
      first | assumption | omega | (simp [PubPc.resetting, PubPc.publishing, PubPc.hasIdx]; done) | exact fun hx => (h6 hx).2 | exact fun hx => ⟨trivial, (h6 hx).2⟩ | exact fun _ => h15 (by decide) | (simp [PubPc.resetting, PubPc.publishing, PubPc.hasIdx]; first | assumption | omega) | skip
    case slots =>
      intro j hj1 hj2
      by_cases hj : j < head
      · rw [List.getElem?_append_left (by omega)]
        exact h5 j hj1 hj
      · have hj3 : j = pub.length := by omega
        subst hj3
        simp [e2, h1]
    case flag_false =>
      intro hx
      have := h15 (by simp)
      simp [hx] at this
    case cHead => intro hx; have := h13 hx; omega
    case cTail => intro hx; obtain ⟨x1, x2, x3⟩ := h14 hx; exact ⟨x1, by omega, x3⟩
  case waitTail =>
    by_cases hlt : tail > i
    · constructor <;> simp only [step, prodStep, recordProd, hlt, if_true] <;>
        first | assumption | omega | (simp [PubPc.resetting, PubPc.publishing, PubPc.hasIdx]; done) | exact fun hx => (h6 hx).2 | exact fun hx => ⟨trivial, (h6 hx).2⟩ | exact fun _ => h15 (by decide) | (simp [PubPc.resetting, PubPc.publishing, PubPc.hasIdx]; first | assumption | omega) | skip
    · constructor <;> simp only [step, prodStep, recordProd, hlt, if_false] <;>
        first | assumption | omega | (simp [PubPc.resetting, PubPc.publishing, PubPc.hasIdx]; done) | exact fun hx => (h6 hx).2 | exact fun hx => ⟨trivial, (h6 hx).2⟩ | exact fun _ => h15 (by decide) | (simp [PubPc.resetting, PubPc.publishing, PubPc.hasIdx]; first | assumption | omega) | skip
  case sample =>
    by_cases hlt : u64inc i < count
    · constructor <;> simp only [step, prodStep, recordProd, loopTest, hlt, if_true] <;>
        first | assumption | omega | (simp [PubPc.resetting, PubPc.publishing, PubPc.hasIdx]; done) | exact fun hx => (h6 hx).2 | exact fun hx => ⟨trivial, (h6 hx).2⟩ | exact fun _ => h15 (by decide) | (simp [PubPc.resetting, PubPc.publishing, PubPc.hasIdx]; first | assumption | omega) | skip
    · constructor <;> simp only [step, prodStep, recordProd, loopTest, hlt, if_false] <;>
        first | assumption | omega | (simp [PubPc.resetting, PubPc.publishing, PubPc.hasIdx]; done) | exact fun hx => (h6 hx).2 | exact fun hx => ⟨trivial, (h6 hx).2⟩ | exact fun _ => h15 (by decide) | (simp [PubPc.resetting, PubPc.publishing, PubPc.hasIdx]; first | assumption | omega) | skip
  case done =>
    constructor <;> simp only [step, prodStep, recordProd] <;>
      first | assumption | omega | (simp [PubPc.resetting, PubPc.publishing, PubPc.hasIdx]; done) | exact fun hx => (h6 hx).2 | exact fun hx => ⟨trivial, (h6 hx).2⟩ | exact fun _ => h15 (by decide) | (simp [PubPc.resetting, PubPc.publishing, PubPc.hasIdx]; first | assumption | omega) | skip

theorem Inv.step_spawnProd {cap : Nat} {s : System} (count : Nat) (h : Inv cap s) :
    Inv cap (step cap s (Action.spawnProd count)) := by
  obtain ⟨h1, h2, h3, h4, h5, h6, h7, h15, h8, h9, h10, h11, h12, h13, h14⟩ := h
  constructor <;> simp only [step, Producer.start] <;>
    first | assumption | simp [PubPc.resetting, PubPc.publishing, PubPc.hasIdx]

theorem Inv.step_spawnCons {cap : Nat} {s : System} (h : Inv cap s) :
    Inv cap (step cap s Action.spawnCons) := by
  obtain ⟨h1, h2, h3, h4, h5, h6, h7, h15, h8, h9, h10, h11, h12, h13, h14⟩ := h
  constructor <;> simp only [step, Consumer.start] <;>
    first | assumption | simp

theorem published_length_step (cap : Nat) (s : System) (a : Action) :
    s.hist.published.length ≤ (step cap s a).hist.published.length := by
  cases a with
  | prod now =>
    simp only [step, recordProd]
    split
    · simp
    · split <;> simp
    · simp
  | cons =>
    simp only [step, recordCons]
    split <;> simp
  | spawnProd count => simp [step]
  | spawnCons => simp [step]

theorem run_cons (cap : Nat) (s : System) (a : Action) (sched : List Action) :
    run cap s (a :: sched) = run cap (step cap s a) sched := rfl

theorem run_append (cap : Nat) (s : System) (xs ys : List Action) :
    run cap s (xs ++ ys) = run cap (run cap s xs) ys := by
  simp [run, List.foldl_append]

theorem published_length_run (cap : Nat) (s : System) (sched : List Action) :
    s.hist.published.length ≤ (run cap s sched).hist.published.length := by
  induction sched generalizing s with
  | nil => exact Nat.le_refl _
  | cons a rest ih =>
    rw [run_cons]
    exact Nat.le_trans (published_length_step cap s a) (ih _)

theorem Inv.preserved {cap : Nat} {s : System} (a : Action) (h : Inv cap s)
    (hnw : (step cap s a).hist.published.length < U64) : Inv cap (step cap s a) := by
  cases a with
  | prod now => exact h.step_prod now hnw
  | cons => exact h.step_cons (Nat.lt_of_le_of_lt (published_length_step cap s Action.cons) hnw)
  | spawnProd count => exact h.step_spawnProd count
  | spawnCons => exact h.step_spawnCons

theorem Inv.reach {cap : Nat} {s : System} (sched : List Action) (h : Inv cap s)
    (hnw : (run cap s sched).hist.published.length < U64) : Inv cap (run cap s sched) := by
  induction sched generalizing s with
  | nil => exact h
  | cons a rest ih =>
    rw [run_cons] at hnw ⊢
    exact ih (h.preserved a (Nat.lt_of_le_of_lt (published_length_run cap _ rest) hnw)) hnw

/-! ## The producer-run invariant is preserved -/

theorem RunInv.start (s : System) (n : Nat) (hn : n < U64) (hp : s.prod = Producer.start n) :
    RunInv n s.region.hdr.head s.region.hdr.initialized s.hist.published s := by
  have hmod : n % U64 = n := Nat.mod_eq_of_lt hn
  refine ⟨[], by simp, ?_⟩
  constructor <;> (try rw [hp]) <;> simp [Producer.start, hmod, PubPc.inInit, PubPc.inLoop,
    PubPc.afterStore, PubPc.seqWritten]

theorem RunInv.prod_step {cap n h0 : Nat} {ini0 : Bool} {P0 : List ShmMsg} {s : System}
    (now : Nat) (hn : n < U64) (hh : h0 < U64) (h : RunInv n h0 ini0 P0 s) :
    RunInv n h0 ini0 P0 (step cap s (Action.prod now)) := by
  obtain ⟨sent, hpub, b1, b2, b3, b4, b5, b6, b7, b8, b9, b10, b11, b12, b13⟩ := h
  obtain ⟨⟨⟨head, tail, ini⟩, msgs⟩, ⟨pc, count, i, ch, ct, idx, nh, bo, rtts⟩, c, ⟨pub, consd, resets⟩⟩ := s
  simp only at hpub b1 b2 b3 b4 b5 b6 b7 b8 b9 b10 b11 b12 b13
  subst b1
  cases pc <;> simp only [PubPc.inInit, PubPc.inLoop, PubPc.afterStore, PubPc.seqWritten, reduceCtorEq, if_true, if_false, true_implies, false_implies, Bool.false_eq_true, Nat.add_zero, u64inc, U64] at b2 b5 b6 b7 b8 b9 b10 b11 b12 b13 hn hh
  case casInit =>
    obtain ⟨e1, e2⟩ := b11
    subst e1 e2 b5
    cases ini
    · refine ⟨sent, hpub, ?_⟩
      constructor <;> (try simp only [step, prodStep, recordProd, Bool.true_eq_false, Bool.false_eq_true, if_true]) <;>
      first | assumption | omega | (simp [PubPc.inInit, PubPc.inLoop, PubPc.afterStore, PubPc.seqWritten, headBase, u64inc, U64]; done) | (simp [PubPc.inInit, PubPc.inLoop, PubPc.afterStore, PubPc.seqWritten, u64inc, U64]; first | assumption | omega) | (simp [PubPc.inInit, PubPc.inLoop, PubPc.afterStore, PubPc.seqWritten, headBase, u64inc, U64]; first | assumption | omega) | skip
    · by_cases hlt : 0 < count
      · refine ⟨sent, hpub, ?_⟩
        constructor <;> (try simp only [step, prodStep, recordProd, Bool.true_eq_false, Bool.false_eq_true, loopTest, hlt, if_true, if_false]) <;>
      first | assumption | omega | (simp [PubPc.inInit, PubPc.inLoop, PubPc.afterStore, PubPc.seqWritten, headBase, u64inc, U64]; done) | (simp [PubPc.inInit, PubPc.inLoop, PubPc.afterStore, PubPc.seqWritten, u64inc, U64]; first | assumption | omega) | (simp [PubPc.inInit, PubPc.inLoop, PubPc.afterStore, PubPc.seqWritten, headBase, u64inc, U64]; first | assumption | omega) | skip
      · refine ⟨sent, hpub, ?_⟩
        constructor <;> (try simp only [step, prodStep, recordProd, Bool.true_eq_false, Bool.false_eq_true, loopTest, hlt, if_false]) <;>
      first | assumption | omega | (simp [PubPc.inInit, PubPc.inLoop, PubPc.afterStore, PubPc.seqWritten, headBase, u64inc, U64]; done) | (simp [PubPc.inInit, PubPc.inLoop, PubPc.afterStore, PubPc.seqWritten, u64inc, U64]; first | assumption | omega) | (simp [PubPc.inInit, PubPc.inLoop, PubPc.afterStore, PubPc.seqWritten, headBase, u64inc, U64]; first | assumption | omega) | skip
  case initHead =>
    subst b5 b12
    refine ⟨sent, hpub, ?_⟩
    constructor <;> (try simp only [step, prodStep, recordProd, Bool.true_eq_false, Bool.false_eq_true]) <;>
      first | assumption | omega | (simp [PubPc.inInit, PubPc.inLoop, PubPc.afterStore, PubPc.seqWritten, headBase, u64inc, U64]; done) | (simp [PubPc.inInit, PubPc.inLoop, PubPc.afterStore, PubPc.seqWritten, u64inc, U64]; first | assumption | omega) | (simp [PubPc.inInit, PubPc.inLoop, PubPc.afterStore, PubPc.seqWritten, headBase, u64inc, U64]; first | assumption | omega) | skip
  case initTail =>
    obtain ⟨e1, e2⟩ := b13
    subst b5 e1 e2
    by_cases hlt : 0 < count
    · refine ⟨sent, hpub, ?_⟩
      constructor <;> (try simp only [step, prodStep, recordProd, Bool.true_eq_false, Bool.false_eq_true, loopTest, hlt, if_true, if_false]) <;>
      first | assumption | omega | (simp [PubPc.inInit, PubPc.inLoop, PubPc.afterStore, PubPc.seqWritten, headBase, u64inc, U64]; done) | (simp [PubPc.inInit, PubPc.inLoop, PubPc.afterStore, PubPc.seqWritten, u64inc, U64]; first | assumption | omega) | (simp [PubPc.inInit, PubPc.inLoop, PubPc.afterStore, PubPc.seqWritten, headBase, u64inc, U64]; first | assumption | omega) | skip
    · refine ⟨sent, hpub, ?_⟩
      constructor <;> (try simp only [step, prodStep, recordProd, Bool.true_eq_false, Bool.false_eq_true, loopTest, hlt, if_false]) <;>
      first | assumption | omega | (simp [PubPc.inInit, PubPc.inLoop, PubPc.afterStore, PubPc.seqWritten, headBase, u64inc, U64]; done) | (simp [PubPc.inInit, PubPc.inLoop, PubPc.afterStore, PubPc.seqWritten, u64inc, U64]; first | assumption | omega) | (simp [PubPc.inInit, PubPc.inLoop, PubPc.afterStore, PubPc.seqWritten, headBase, u64inc, U64]; first | assumption | omega) | skip
  case loadHead =>
    refine ⟨sent, hpub, ?_⟩
    constructor <;> (try simp only [step, prodStep, recordProd, Bool.true_eq_false, Bool.false_eq_true]) <;>
      first | assumption | omega | (simp [PubPc.inInit, PubPc.inLoop, PubPc.afterStore, PubPc.seqWritten, headBase, u64inc, U64]; done) | (simp [PubPc.inInit, PubPc.inLoop, PubPc.afterStore, PubPc.seqWritten, u64inc, U64]; first | assumption | omega) | (simp [PubPc.inInit, PubPc.inLoop, PubPc.afterStore, PubPc.seqWritten, headBase, u64inc, U64]; first | assumption | omega) | skip
  case loadTail =>
    by_cases hlt : u64sub ch tail < cap
    · refine ⟨sent, hpub, ?_⟩
      constructor <;> (try simp only [step, prodStep, recordProd, Bool.true_eq_false, Bool.false_eq_true, hlt, if_true]) <;>
      first | assumption | omega | (simp [PubPc.inInit, PubPc.inLoop, PubPc.afterStore, PubPc.seqWritten, headBase, u64inc, U64]; done) | (simp [PubPc.inInit, PubPc.inLoop, PubPc.afterStore, PubPc.seqWritten, u64inc, U64]; first | assumption | omega) | (simp [PubPc.inInit, PubPc.inLoop, PubPc.afterStore, PubPc.seqWritten, headBase, u64inc, U64]; first | assumption | omega) | skip
    · refine ⟨sent, hpub, ?_⟩
      constructor <;> (try simp only [step, prodStep, recordProd, Bool.true_eq_false, Bool.false_eq_true, hlt, if_false]) <;>
      first | assumption | omega | (simp [PubPc.inInit, PubPc.inLoop, PubPc.afterStore, PubPc.seqWritten, headBase, u64inc, U64]; done) | (simp [PubPc.inInit, PubPc.inLoop, PubPc.afterStore, PubPc.seqWritten, u64inc, U64]; first | assumption | omega) | (simp [PubPc.inInit, PubPc.inLoop, PubPc.afterStore, PubPc.seqWritten, headBase, u64inc, U64]; first | assumption | omega) | skip
  case loadIdx =>
    refine ⟨sent, hpub, ?_⟩
    constructor <;> (try simp only [step, prodStep, recordProd, Bool.true_eq_false, Bool.false_eq_true]) <;>
      first | assumption | omega | (simp [PubPc.inInit, PubPc.inLoop, PubPc.afterStore, PubPc.seqWritten, headBase, u64inc, U64]; done) | (simp [PubPc.inInit, PubPc.inLoop, PubPc.afterStore, PubPc.seqWritten, u64inc, U64]; first | assumption | omega) | (simp [PubPc.inInit, PubPc.inLoop, PubPc.afterStore, PubPc.seqWritten, headBase, u64inc, U64]; first | assumption | omega) | skip
  case writeSeq =>
    refine ⟨sent, hpub, ?_⟩
    constructor <;> (try simp only [step, prodStep, recordProd, Bool.true_eq_false, Bool.false_eq_true, Region.setMsg]) <;>
      first | assumption | omega | (simp [PubPc.inInit, PubPc.inLoop, PubPc.afterStore, PubPc.seqWritten, headBase, u64inc, U64]; done) | (simp [PubPc.inInit, PubPc.inLoop, PubPc.afterStore, PubPc.seqWritten, u64inc, U64]; first | assumption | omega) | (simp [PubPc.inInit, PubPc.inLoop, PubPc.afterStore, PubPc.seqWritten, headBase, u64inc, U64]; first | assumption | omega) | skip
  case writeTs =>
    refine ⟨sent, hpub, ?_⟩
    constructor <;> (try simp only [step, prodStep, recordProd, Bool.true_eq_false, Bool.false_eq_true, Region.setMsg]) <;>
      first | assumption | omega | (simp [PubPc.inInit, PubPc.inLoop, PubPc.afterStore, PubPc.seqWritten, headBase, u64inc, U64]; done) | (simp [PubPc.inInit, PubPc.inLoop, PubPc.afterStore, PubPc.seqWritten, u64inc, U64]; first | assumption | omega) | (simp [PubPc.inInit, PubPc.inLoop, PubPc.afterStore, PubPc.seqWritten, headBase, u64inc, U64]; first | assumption | omega) | skip
  case loadHeadInc =>
    refine ⟨sent, hpub, ?_⟩
    constructor <;> (try simp only [step, prodStep, recordProd, Bool.true_eq_false, Bool.false_eq_true]) <;>
      first | assumption | omega | (simp [PubPc.inInit, PubPc.inLoop, PubPc.afterStore, PubPc.seqWritten, headBase, u64inc, U64]; done) | (simp [PubPc.inInit, PubPc.inLoop, PubPc.afterStore, PubPc.seqWritten, u64inc, U64]; first | assumption | omega) | (simp [PubPc.inInit, PubPc.inLoop, PubPc.afterStore, PubPc.seqWritten, headBase, u64inc, U64]; first | assumption | omega) | skip
  case storeHead =>
    have hseq : ∀ (j : ℕ) (m : ShmMsg), (sent ++ [msgs idx])[j]? = some m → m.seq = j := by
      intro j m hjm
      by_cases hj : j < sent.length
      · rw [List.getElem?_append_left hj] at hjm
        exact b4 j m hjm
      · have hl := (List.getElem?_eq_some.mp hjm).1
        simp only [List.length_append, List.length_singleton] at hl
        have hj2 : j = sent.length := by omega
        subst hj2
        simp at hjm
        rw [← hjm, b8, b2]
    refine ⟨sent ++ [msgs idx], by simp [step, recordProd, hpub], ?_⟩
    constructor <;> (try simp only [step, prodStep, recordProd, Bool.true_eq_false, Bool.false_eq_true]) <;>
      first | assumption | omega | (simp [PubPc.inInit, PubPc.inLoop, PubPc.afterStore, PubPc.seqWritten, headBase, u64inc, U64]; done) | (simp [PubPc.inInit, PubPc.inLoop, PubPc.afterStore, PubPc.seqWritten, u64inc, U64]; first | assumption | omega) | (simp [PubPc.inInit, PubPc.inLoop, PubPc.afterStore, PubPc.seqWritten, headBase, u64inc, U64]; first | assumption | omega) | skip
  case waitTail =>
    by_cases hlt : tail > i
    · refine ⟨sent, hpub, ?_⟩
      constructor <;> (try simp only [step, prodStep, recordProd, Bool.true_eq_false, Bool.false_eq_true, hlt, if_true]) <;>
      first | assumption | omega | (simp [PubPc.inInit, PubPc.inLoop, PubPc.afterStore, PubPc.seqWritten, headBase, u64inc, U64]; done) | (simp [PubPc.inInit, PubPc.inLoop, PubPc.afterStore, PubPc.seqWritten, u64inc, U64]; first | assumption | omega) | (simp [PubPc.inInit, PubPc.inLoop, PubPc.afterStore, PubPc.seqWritten, headBase, u64inc, U64]; first | assumption | omega) | skip
    · refine ⟨sent, hpub, ?_⟩
      constructor <;> (try simp only [step, prodStep, recordProd, Bool.true_eq_false, Bool.false_eq_true, hlt, if_false]) <;>
      first | assumption | omega | (simp [PubPc.inInit, PubPc.inLoop, PubPc.afterStore, PubPc.seqWritten, headBase, u64inc, U64]; done) | (simp [PubPc.inInit, PubPc.inLoop, PubPc.afterStore, PubPc.seqWritten, u64inc, U64]; first | assumption | omega) | (simp [PubPc.inInit, PubPc.inLoop, PubPc.afterStore, PubPc.seqWritten, headBase, u64inc, U64]; first | assumption | omega) | skip
  case sample =>
    have hinc : u64inc i = i + 1 := by unfold u64inc U64; omega
    by_cases hlt : i + 1 < count
    · refine ⟨sent, hpub, ?_⟩
      constructor <;> (try simp only [step, prodStep, recordProd, Bool.true_eq_false, Bool.false_eq_true, loopTest, hinc, hlt, if_true]) <;>
      first | assumption | omega | (simp [PubPc.inInit, PubPc.inLoop, PubPc.afterStore, PubPc.seqWritten, headBase, u64inc, U64]; done) | (simp [PubPc.inInit, PubPc.inLoop, PubPc.afterStore, PubPc.seqWritten, u64inc, U64]; first | assumption | omega) | (simp [PubPc.inInit, PubPc.inLoop, PubPc.afterStore, PubPc.seqWritten, headBase, u64inc, U64]; first | assumption | omega) | skip
    · refine ⟨sent, hpub, ?_⟩
      constructor <;> (try simp only [step, prodStep, recordProd, Bool.true_eq_false, Bool.false_eq_true, loopTest, hinc, hlt, if_false]) <;>
      first | assumption | omega | (simp [PubPc.inInit, PubPc.inLoop, PubPc.afterStore, PubPc.seqWritten, headBase, u64inc, U64]; done) | (simp [PubPc.inInit, PubPc.inLoop, PubPc.afterStore, PubPc.seqWritten, u64inc, U64]; first | assumption | omega) | (simp [PubPc.inInit, PubPc.inLoop, PubPc.afterStore, PubPc.seqWritten, headBase, u64inc, U64]; first | assumption | omega) | skip
  case done =>
    refine ⟨sent, hpub, ?_⟩
    constructor <;> (try simp only [step, prodStep, recordProd, Bool.true_eq_false, Bool.false_eq_true]) <;>
      first | assumption | omega | (simp [PubPc.inInit, PubPc.inLoop, PubPc.afterStore, PubPc.seqWritten, headBase, u64inc, U64]; done) | (simp [PubPc.inInit, PubPc.inLoop, PubPc.afterStore, PubPc.seqWritten, u64inc, U64]; first | assumption | omega) | (simp [PubPc.inInit, PubPc.inLoop, PubPc.afterStore, PubPc.seqWritten, headBase, u64inc, U64]; first | assumption | omega) | skip

theorem consStep_frame (cap : Nat) (r : Region) (c : Consumer) :
    (consStep cap r c).1.hdr.head = r.hdr.head ∧
    (consStep cap r c).1.hdr.initialized = r.hdr.initialized ∧
    (consStep cap r c).1.msgs = r.msgs := by
  unfold consStep
  split
  · exact ⟨rfl, rfl, rfl⟩
  · split <;> exact ⟨rfl, rfl, rfl⟩
  · exact ⟨rfl, rfl, rfl⟩

theorem recordCons_published (s : System) : (recordCons s).published = s.hist.published := by
  unfold recordCons
  split <;> rfl

theorem RunInv.cons_step {cap n h0 : Nat} {ini0 : Bool} {P0 : List ShmMsg} {s : System}
    (h : RunInv n h0 ini0 P0 s) : RunInv n h0 ini0 P0 (step cap s Action.cons) := by
  obtain ⟨sent, hpub, b1, b2, b3, b4, b5, b6, b7, b8, b9, b10, b11, b12, b13⟩ := h
  obtain ⟨f1, f2, f3⟩ := consStep_frame cap s.region s.cons
  refine ⟨sent, by simpa [step, recordCons_published] using hpub, ?_⟩
  constructor <;> (try simp only [step, f1, f2, f3]) <;> assumption

theorem RunInv.spawnCons_step {cap n h0 : Nat} {ini0 : Bool} {P0 : List ShmMsg} {s : System}
    (h : RunInv n h0 ini0 P0 s) : RunInv n h0 ini0 P0 (step cap s Action.spawnCons) := by
  obtain ⟨sent, hpub, b1, b2, b3, b4, b5, b6, b7, b8, b9, b10, b11, b12, b13⟩ := h
  refine ⟨sent, hpub, ?_⟩
  constructor <;> assumption

theorem RunInv.along (cap : Nat) {n h0 : Nat} {ini0 : Bool} {P0 : List ShmMsg} {s : System}
    (sched : List Action) (hs : prodRun sched = true) (hn : n < U64) (hh : h0 < U64)
    (h : RunInv n h0 ini0 P0 s) : RunInv n h0 ini0 P0 (run cap s sched) := by
  induction sched generalizing s with
  | nil => exact h
  | cons a rest ih =>
    rw [run_cons]
    cases a with
    | prod now => exact ih (by simpa [prodRun] using hs) (h.prod_step now hn hh)
    | cons => exact ih (by simpa [prodRun] using hs) h.cons_step
    | spawnProd count => simp [prodRun] at hs
    | spawnCons => exact ih (by simpa [prodRun] using hs) h.spawnCons_step

/-! ## Run-level consequences -/

theorem prodStep_tail {cap : Nat} {s : System} (now : Nat) (h : Inv cap s) :
    (prodStep cap now s.region s.prod).1.hdr.tail = s.region.hdr.tail := by
  have h0 := h.pReset
  have h1 := h.tail_le
  unfold prodStep
  split <;> try rfl
  · split <;> rfl
  · rename_i hpc
    have := h0 (by rw [hpc]; rfl)
    simp only
    omega
  · split <;> rfl
  · split <;> rfl

theorem prodOnly_run {cap : Nat} {s : System} (sched : List Action)
    (hs : prodOnly sched = true) (h : Inv cap s)
    (hnw : (run cap s sched).hist.published.length < U64) :
    (run cap s sched).cons = s.cons ∧
      (run cap s sched).region.hdr.tail = s.region.hdr.tail := by
  induction sched generalizing s with
  | nil => exact ⟨rfl, rfl⟩
  | cons a rest ih =>
    rw [run_cons] at hnw ⊢
    have hstep := h.preserved a (Nat.lt_of_le_of_lt (published_length_run cap _ rest) hnw)
    cases a with
    | prod now =>
      obtain ⟨i1, i2⟩ := ih (by simpa [prodOnly] using hs) hstep hnw
      exact ⟨i1, by rw [i2]; exact prodStep_tail now h⟩
    | cons => simp [prodOnly] at hs
    | spawnProd count =>
      obtain ⟨i1, i2⟩ := ih (by simpa [prodOnly] using hs) hstep hnw
      exact ⟨i1, i2⟩
    | spawnCons => simp [prodOnly] at hs

theorem prodRun_of_singleRun (sched : List Action) (hs : singleRun sched = true) :
    prodRun sched = true := by
  induction sched with
  | nil => rfl
  | cons a rest ih =>
    cases a with
    | prod now => exact ih (by simpa [singleRun] using hs)
    | cons => exact ih (by simpa [singleRun] using hs)
    | spawnProd count => simp [singleRun] at hs
    | spawnCons => simp [singleRun] at hs

theorem start_mod (count : Nat) : Producer.start count = Producer.start (count % U64) := by
  simp [Producer.start, Nat.mod_mod]

theorem mod_U64_lt (count : Nat) : count % U64 < U64 := Nat.mod_lt _ (by unfold U64; omega)

/-- Within one producer run on a new region the history never reaches `2 ^ 64`. -/
theorem published_lt_of_prodRun (cap count : Nat) (sched : List Action)
    (hs : prodRun sched = true) :
    (run cap (init count) sched).hist.published.length < U64 := by
  have h0 : RunInv (count % U64) 0 false [] (init count) :=
    RunInv.start (init count) (count % U64) (mod_U64_lt count) (start_mod count)
  obtain ⟨sent, hpub, hb⟩ := RunInv.along cap sched hs (mod_U64_lt count)
    (by unfold U64; omega) h0
  have hl := hb.len
  have ha := hb.active
  have hf := hb.fin
  have hi := hb.init0
  have hc := mod_U64_lt count
  rw [hpub, List.nil_append, hl]
  rcases hpc : (run cap (init count) sched).prod.pc <;>
    simp only [hpc, PubPc.afterStore, PubPc.inLoop, PubPc.inInit, reduceCtorEq, if_true, if_false,
      true_implies, false_implies, Bool.false_eq_true] at ha hf hi ⊢ <;> omega

theorem Inv.of_prodRun (cap count : Nat) (sched : List Action) (hs : prodRun sched = true) :
    Inv cap (run cap (init count) sched) :=
  Inv.reach sched (Inv.fresh cap count) (published_lt_of_prodRun cap count sched hs)

theorem singleRun_append (xs ys : List Action) :
    singleRun (xs ++ ys) = (singleRun xs && singleRun ys) := by
  induction xs with
  | nil => simp [singleRun]
  | cons a rest ih =>
    cases a <;> simp [singleRun, ih]

theorem processed_eq_tail (cap count : Nat) (sched : List Action)
    (hs : singleRun sched = true) :
    (run cap (init count) sched).cons.processed_count =
      (run cap (init count) sched).region.hdr.tail := by
  induction sched using List.reverseRecOn with
  | nil => rfl
  | append_singleton rest a ih =>
    rw [singleRun_append, Bool.and_eq_true] at hs
    obtain ⟨hs1, hs2⟩ := hs
    have hinv := Inv.of_prodRun cap count rest (prodRun_of_singleRun rest hs1)
    have ih := ih hs1
    rw [run_append]
    show (step cap (run cap (init count) rest) a).cons.processed_count =
      (step cap (run cap (init count) rest) a).region.hdr.tail
    generalize run cap (init count) rest = s at hinv ih
    cases a with
    | prod now =>
      show s.cons.processed_count = (prodStep cap now s.region s.prod).1.hdr.tail
      rw [prodStep_tail now hinv]; exact ih
    | cons =>
      have hc := hinv.cTail
      simp only [step, consStep]
      split
      · exact ih
      · split <;> exact ih
      · rename_i hpc
        obtain ⟨e1, _, _⟩ := hc hpc
        simp only [ih, e1]
    | spawnProd count => simp [singleRun] at hs2
    | spawnCons => simp [singleRun] at hs2

/-! ## The claims -/

/-- C1: in every state reached from a newly created region by any interleaving of
producer steps, consumer steps and process launches, as long as fewer than `2 ^ 64`
messages have been published (the counters have not wrapped), `tail ≤ head` and
`head - tail ≤ RING_SIZE = 1024`. -/
theorem C1_ring_bounds (count : Nat) (sched : List Action)
    (hnw : (run RING_SIZE (init count) sched).hist.published.length < U64) :
    (run RING_SIZE (init count) sched).region.hdr.tail ≤
        (run RING_SIZE (init count) sched).region.hdr.head ∧
      (run RING_SIZE (init count) sched).region.hdr.head -
        (run RING_SIZE (init count) sched).region.hdr.tail ≤ RING_SIZE ∧
      RING_SIZE = 1024 := by
  have h := Inv.reach sched (Inv.fresh RING_SIZE count) hnw
  have h1 := h.tail_le
  have h2 := h.head_le
  exact ⟨h1, by omega, rfl⟩

/-- C1 at a concrete run: three messages sent and taken, then a fourth published. -/
theorem C1_ring_bounds_witness :
    (run RING_SIZE (init 5) (fullRun 3 ++ prodSteps 7 9)).hist.published.length < U64 ∧
    ((run RING_SIZE (init 5) (fullRun 3 ++ prodSteps 7 9)).region.hdr.tail ≤
        (run RING_SIZE (init 5) (fullRun 3 ++ prodSteps 7 9)).region.hdr.head ∧
      (run RING_SIZE (init 5) (fullRun 3 ++ prodSteps 7 9)).region.hdr.head -
        (run RING_SIZE (init 5) (fullRun 3 ++ prodSteps 7 9)).region.hdr.tail ≤ RING_SIZE ∧
      RING_SIZE = 1024) :=
  ⟨by decide, C1_ring_bounds 5 (fullRun 3 ++ prodSteps 7 9) (by decide)⟩

/-- C2: in every run of one producer and one consumer on a newly created region,
for every ring size `cap > 0`, whenever the consumer is positioned on a slot (it has
passed the test of line 86 and not yet stored `tail`), this is its `k`-th consume
with `k = processed_count = tail`, the slot is `tail % cap`, and the slot holds
exactly the `k`-th published message, whose `seq` is `k`; and the `j`-th published
message carries `seq = j` for every `j`. -/
theorem C2_fifo_order (cap count : Nat) (hcap : 0 < cap) (sched : List Action)
    (hs : singleRun sched = true)
    (hpc : (run cap (init count) sched).cons.pc = SubPc.storeTail) :
    (run cap (init count) sched).cons.processed_count =
        (run cap (init count) sched).region.hdr.tail ∧
      (run cap (init count) sched).hist.consumed =
        (run cap (init count) sched).cons.processed_count ∧
      (run cap (init count) sched).cons.idx =
        (run cap (init count) sched).region.hdr.tail % cap ∧
      (run cap (init count) sched).hist.published[
          (run cap (init count) sched).cons.processed_count]? =
        some ((run cap (init count) sched).region.msgs
          ((run cap (init count) sched).cons.idx)) ∧
      ((run cap (init count) sched).region.msgs
          ((run cap (init count) sched).cons.idx)).seq =
        (run cap (init count) sched).cons.processed_count ∧
      (∀ (j : Nat) (m : ShmMsg),
        (run cap (init count) sched).hist.published[j]? = some m → m.seq = j) := by
  have hpr := prodRun_of_singleRun sched hs
  have hinv := Inv.of_prodRun cap count sched hpr
  have hk := processed_eq_tail cap count sched hs
  have h0 : RunInv (count % U64) 0 false [] (init count) :=
    RunInv.start (init count) (count % U64) (mod_U64_lt count) (start_mod count)
  obtain ⟨sent, hpub, hb⟩ := RunInv.along cap sched hpr (mod_U64_lt count)
    (by unfold U64; omega) h0
  rw [List.nil_append] at hpub
  have hseq := hb.seqs
  rw [← hpub] at hseq
  obtain ⟨e1, e2, e3⟩ := hinv.cTail hpc
  have hslot := hinv.slots _ (Nat.le_refl _) e2
  rw [← e3] at hslot
  refine ⟨hk, ?_, e3, ?_, ?_, hseq⟩
  · rw [hk]; exact hinv.tail_eq.symm
  · rw [hk]; exact hslot
  · rw [hk]; exact hseq _ _ hslot

/-- C2 at a concrete run: 20 messages through a ring of 4 slots, the consumer
positioned on the last one (its consume number 19, slot 3). -/
theorem C2_fifo_order_witness :
    (0 < 4 ∧ singleRun wrapSchedule = true ∧
      (run 4 (init 20) wrapSchedule).cons.pc = SubPc.storeTail ∧
      (run 4 (init 20) wrapSchedule).cons.processed_count = 19 ∧
      (run 4 (init 20) wrapSchedule).cons.idx = 3) ∧
    ((run 4 (init 20) wrapSchedule).cons.processed_count =
        (run 4 (init 20) wrapSchedule).region.hdr.tail ∧
      (run 4 (init 20) wrapSchedule).hist.consumed =
        (run 4 (init 20) wrapSchedule).cons.processed_count ∧
      (run 4 (init 20) wrapSchedule).cons.idx =
        (run 4 (init 20) wrapSchedule).region.hdr.tail % 4 ∧
      (run 4 (init 20) wrapSchedule).hist.published[
          (run 4 (init 20) wrapSchedule).cons.processed_count]? =
        some ((run 4 (init 20) wrapSchedule).region.msgs
          ((run 4 (init 20) wrapSchedule).cons.idx)) ∧
      ((run 4 (init 20) wrapSchedule).region.msgs
          ((run 4 (init 20) wrapSchedule).cons.idx)).seq =
        (run 4 (init 20) wrapSchedule).cons.processed_count ∧
      (∀ (j : Nat) (m : ShmMsg),
        (run 4 (init 20) wrapSchedule).hist.published[j]? = some m → m.seq = j)) :=
  ⟨by decide, C2_fifo_order 4 20 (by decide) wrapSchedule (by decide) (by decide)⟩

/-- C3: in every state reached from a newly created region (counters not wrapped)
in which the producer is about to read `tail` for its space check (line 102), the
value of `head` it read on line 101 is still the current `head`, and the attempt is
refused (the producer calls `backoff.wait()` and goes back to line 101, writing
nothing) if and only if `head - tail = cap` at that moment; otherwise
`head - tail < cap` and it goes on to write the slot. -/
theorem C3_publish_refused_iff (cap count now : Nat) (sched : List Action)
    (hnw : (run cap (init count) sched).hist.published.length < U64)
    (hpc : (run cap (init count) sched).prod.pc = PubPc.loadTail) :
    (run cap (init count) sched).prod.current_head =
        (run cap (init count) sched).region.hdr.head ∧
      u64sub (run cap (init count) sched).region.hdr.head
          (run cap (init count) sched).region.hdr.tail =
        (run cap (init count) sched).region.hdr.head -
          (run cap (init count) sched).region.hdr.tail ∧
      ((step cap (run cap (init count) sched) (Action.prod now)).prod.pc = PubPc.loadHead ↔
        (run cap (init count) sched).region.hdr.head -
          (run cap (init count) sched).region.hdr.tail = cap) ∧
      ((step cap (run cap (init count) sched) (Action.prod now)).prod.pc = PubPc.loadIdx ↔
        (run cap (init count) sched).region.hdr.head -
          (run cap (init count) sched).region.hdr.tail < cap) ∧
      ((step cap (run cap (init count) sched) (Action.prod now)).prod.pc = PubPc.loadHead →
        (step cap (run cap (init count) sched) (Action.prod now)).region =
            (run cap (init count) sched).region ∧
          (step cap (run cap (init count) sched) (Action.prod now)).prod.backoff =
            ((run cap (init count) sched).prod.backoff.wait).2) := by
  have hinv := Inv.reach sched (Inv.fresh cap count) hnw
  generalize run cap (init count) sched = s at hnw hpc hinv
  have e1 := hinv.pHead hpc
  have e2 := hinv.tail_le
  have e3 := hinv.head_le
  have e4 := hinv.head_eq
  have hsub : u64sub s.region.hdr.head s.region.hdr.tail =
      s.region.hdr.head - s.region.hdr.tail := by
    unfold u64sub U64; unfold U64 at hnw; omega
  refine ⟨e1, hsub, ?_⟩
  simp only [step, prodStep, hpc, e1, hsub]
  by_cases hlt : s.region.hdr.head - s.region.hdr.tail < cap
  · simp only [hlt, if_true, reduceCtorEq, false_iff, true_iff, false_implies, and_true]
    omega
  · simp only [hlt, if_false, reduceCtorEq, false_iff, true_iff, true_implies, and_true,
      not_false_eq_true, and_self]
    omega

/-- C3 at a concrete run with two slots: two producer runs each leave one message
unconsumed, a third producer finds the ring full and is refused. -/
theorem C3_publish_refused_iff_witness :
    ((run 2 (init 1) fullRing).hist.published.length < U64 ∧
      (run 2 (init 1) fullRing).prod.pc = PubPc.loadTail ∧
      (step 2 (run 2 (init 1) fullRing) (Action.prod 0)).prod.pc = PubPc.loadHead) ∧
    ((run 2 (init 1) fullRing).prod.current_head = (run 2 (init 1) fullRing).region.hdr.head ∧
      u64sub (run 2 (init 1) fullRing).region.hdr.head
          (run 2 (init 1) fullRing).region.hdr.tail =
        (run 2 (init 1) fullRing).region.hdr.head -
          (run 2 (init 1) fullRing).region.hdr.tail ∧
      ((step 2 (run 2 (init 1) fullRing) (Action.prod 0)).prod.pc = PubPc.loadHead ↔
        (run 2 (init 1) fullRing).region.hdr.head -
          (run 2 (init 1) fullRing).region.hdr.tail = 2) ∧
      ((step 2 (run 2 (init 1) fullRing) (Action.prod 0)).prod.pc = PubPc.loadIdx ↔
        (run 2 (init 1) fullRing).region.hdr.head -
          (run 2 (init 1) fullRing).region.hdr.tail < 2) ∧
      ((step 2 (run 2 (init 1) fullRing) (Action.prod 0)).prod.pc = PubPc.loadHead →
        (step 2 (run 2 (init 1) fullRing) (Action.prod 0)).region =
            (run 2 (init 1) fullRing).region ∧
          (step 2 (run 2 (init 1) fullRing) (Action.prod 0)).prod.backoff =
            ((run 2 (init 1) fullRing).prod.backoff.wait).2)) :=
  ⟨by decide, C3_publish_refused_iff 2 1 0 fullRing (by decide) (by decide)⟩

/-- C4: in every state reached from a newly created region (counters not wrapped)
in which the consumer is about to read `head` (line 83), whatever the producer does
between that read and the consumer's read of `tail` (line 84), the consumer takes the
backoff branch (back to line 83 with `backoff.wait()` called and `tail` as it was) if and
only if `tail = head` when `head` was read; otherwise `tail < head` then, and the
consumer goes on to store `tail + 1`. -/
theorem C4_consume_empty_iff (cap count : Nat) (sched between : List Action)
    (hb : prodOnly between = true)
    (hnw : (run cap (step cap (run cap (init count) sched) Action.cons)
      between).hist.published.length < U64)
    (hpc : (run cap (init count) sched).cons.pc = SubPc.loadHead) :
    ((step cap (run cap (step cap (run cap (init count) sched) Action.cons) between)
          Action.cons).cons.pc = SubPc.loadHead ↔
        (run cap (init count) sched).region.hdr.tail =
          (run cap (init count) sched).region.hdr.head) ∧
      ((step cap (run cap (step cap (run cap (init count) sched) Action.cons) between)
          Action.cons).cons.pc = SubPc.storeTail ↔
        (run cap (init count) sched).region.hdr.tail <
          (run cap (init count) sched).region.hdr.head) ∧
      (step cap (run cap (step cap (run cap (init count) sched) Action.cons) between)
          Action.cons).region.hdr.tail = (run cap (init count) sched).region.hdr.tail ∧
      ((step cap (run cap (step cap (run cap (init count) sched) Action.cons) between)
          Action.cons).cons.pc = SubPc.loadHead →
        (step cap (run cap (step cap (run cap (init count) sched) Action.cons) between)
          Action.cons).cons.backoff =
            ((run cap (init count) sched).cons.backoff.wait).2) := by
  have hnw1 : (step cap (run cap (init count) sched) Action.cons).hist.published.length < U64 :=
    Nat.lt_of_le_of_lt (published_length_run cap _ between) hnw
  have hnw0 : (run cap (init count) sched).hist.published.length < U64 :=
    Nat.lt_of_le_of_lt (published_length_step cap _ Action.cons) hnw1
  have hinv := Inv.reach sched (Inv.fresh cap count) hnw0
  generalize run cap (init count) sched = s at hnw hnw1 hnw0 hpc hinv
  have hinv1 := hinv.preserved Action.cons hnw1
  obtain ⟨k1, k2⟩ := prodOnly_run between hb hinv1 hnw
  have hle := hinv.tail_le
  have ht1 : (step cap s Action.cons).region.hdr.tail = s.region.hdr.tail := by
    simp only [step, consStep, hpc]
  generalize run cap (step cap s Action.cons) between = s2 at k1 k2 hnw
  rw [ht1] at k2
  by_cases hlt : s.region.hdr.tail < s.region.hdr.head
  · simp only [step, consStep, k1, hpc, k2, hlt, if_true, reduceCtorEq, false_iff, true_iff,
      false_implies, and_true]
    omega
  · simp only [step, consStep, k1, hpc, k2, hlt, if_false, reduceCtorEq, false_iff, true_iff,
      true_implies, and_true, not_false_eq_true]
    omega

/-- C4 at a concrete run: the consumer reads `head = 0` on a new ring, the producer
then publishes a whole message, and the consumer still takes the backoff branch. -/
theorem C4_consume_empty_iff_witness :
    (prodOnly (prodSteps 7 5) = true ∧
      (run 4 (step 4 (run 4 (init 1) (prodSteps 3 0)) Action.cons)
        (prodSteps 7 5)).hist.published.length < U64 ∧
      (run 4 (init 1) (prodSteps 3 0)).cons.pc = SubPc.loadHead ∧
      (run 4 (init 1) (prodSteps 3 0)).region.hdr.tail =
        (run 4 (init 1) (prodSteps 3 0)).region.hdr.head) ∧
    (((step 4 (run 4 (step 4 (run 4 (init 1) (prodSteps 3 0)) Action.cons) (prodSteps 7 5))
          Action.cons).cons.pc = SubPc.loadHead ↔
        (run 4 (init 1) (prodSteps 3 0)).region.hdr.tail =
          (run 4 (init 1) (prodSteps 3 0)).region.hdr.head) ∧
      ((step 4 (run 4 (step 4 (run 4 (init 1) (prodSteps 3 0)) Action.cons) (prodSteps 7 5))
          Action.cons).cons.pc = SubPc.storeTail ↔
        (run 4 (init 1) (prodSteps 3 0)).region.hdr.tail <
          (run 4 (init 1) (prodSteps 3 0)).region.hdr.head) ∧
      (step 4 (run 4 (step 4 (run 4 (init 1) (prodSteps 3 0)) Action.cons) (prodSteps 7 5))
          Action.cons).region.hdr.tail = (run 4 (init 1) (prodSteps 3 0)).region.hdr.tail ∧
      ((step 4 (run 4 (step 4 (run 4 (init 1) (prodSteps 3 0)) Action.cons) (prodSteps 7 5))
          Action.cons).cons.pc = SubPc.loadHead →
        (step 4 (run 4 (step 4 (run 4 (init 1) (prodSteps 3 0)) Action.cons) (prodSteps 7 5))
          Action.cons).cons.backoff =
            ((run 4 (init 1) (prodSteps 3 0)).cons.backoff.wait).2)) :=
  ⟨by decide, C4_consume_empty_iff 4 1 (prodSteps 3 0) (prodSteps 7 5) (by decide) (by decide)
    (by decide)⟩

/-- C5: a successful publish, run without interference from the point where the
producer reads `head` (line 101) with `head - tail < cap` and `head + 1 < 2 ^ 64`: the
slot `head % cap` receives `seq = i` and `t_ns = t` (its payload is kept), `head`
becomes `head + 1`, and `tail`, `initialized` and every other slot are unchanged; the
producer is then at its wait loop. No producer step after the initialisation writes
`tail`, `initialized` or a slot other than `idx`. The publish step of
`shm_publisher.cpp` has the same effect. -/
theorem C5_publish_effect (cap o t : Nat) (s : System)
    (hpc : s.prod.pc = PubPc.loadHead)
    (hspace : u64sub s.region.hdr.head s.region.hdr.tail < cap)
    (hnw : s.region.hdr.head + 1 < U64) :
    ((run cap s (publishSchedule o t)).region.hdr.head = s.region.hdr.head + 1 ∧
      (run cap s (publishSchedule o t)).region.msgs (s.region.hdr.head % cap) =
        { seq := s.prod.i, t_ns := t,
          payload := (s.region.msgs (s.region.hdr.head % cap)).payload } ∧
      (∀ j, j ≠ s.region.hdr.head % cap →
        (run cap s (publishSchedule o t)).region.msgs j = s.region.msgs j) ∧
      (run cap s (publishSchedule o t)).region.hdr.tail = s.region.hdr.tail ∧
      (run cap s (publishSchedule o t)).region.hdr.initialized = s.region.hdr.initialized ∧
      (run cap s (publishSchedule o t)).prod.pc = PubPc.waitTail ∧
      (run cap s (publishSchedule o t)).hist.published = s.hist.published ++
        [{ seq := s.prod.i, t_ns := t,
           payload := (s.region.msgs (s.region.hdr.head % cap)).payload }]) ∧
    (∀ (now : Nat) (r : Region) (p : Producer), p.pc.inInit = false →
      (prodStep cap now r p).1.hdr.tail = r.hdr.tail ∧
      (prodStep cap now r p).1.hdr.initialized = r.hdr.initialized ∧
      (∀ j, j ≠ p.idx → (prodStep cap now r p).1.msgs j = r.msgs j)) ∧
    ((plainPublish cap s.prod.i t s.region).hdr.head = s.region.hdr.head + 1 ∧
      (plainPublish cap s.prod.i t s.region).msgs (s.region.hdr.head % cap) =
        { seq := s.prod.i, t_ns := t,
          payload := (s.region.msgs (s.region.hdr.head % cap)).payload } ∧
      (∀ j, j ≠ s.region.hdr.head % cap →
        (plainPublish cap s.prod.i t s.region).msgs j = s.region.msgs j) ∧
      (plainPublish cap s.prod.i t s.region).hdr.tail = s.region.hdr.tail ∧
      (plainPublish cap s.prod.i t s.region).hdr.initialized = s.region.hdr.initialized) := by
  have hinc : u64inc s.region.hdr.head = s.region.hdr.head + 1 := by
    unfold u64inc; exact Nat.mod_eq_of_lt hnw
  obtain ⟨⟨⟨head, tail, ini⟩, msgs⟩, ⟨pc, count, i, ch, ct, idx, nh, bo, rtts⟩, c, ⟨pub, consd, resets⟩⟩ := s
  simp only at hpc hspace hnw hinc
  subst hpc
  refine ⟨?_, ?_, ?_⟩
  · simp [publishSchedule, prodSteps, run, step, prodStep, recordProd, hspace, hinc,
      Region.setMsg]
    intro j hj
    simp [hj]
  · intro now r p hp
    unfold prodStep
    split <;> first
      | exact ⟨rfl, rfl, fun _ _ => rfl⟩
      | (split <;> exact ⟨rfl, rfl, fun _ _ => rfl⟩)
      | exact ⟨rfl, rfl, fun j hj => by simp [Region.setMsg, hj]⟩
      | simp_all [PubPc.inInit]
  · simp [plainPublish, hinc, Region.setMsg]
    intro j hj
    simp [hj]

/-- C5 at a concrete state: the first publish on a new ring of 1024 slots. -/
theorem C5_publish_effect_witness :
    ((run RING_SIZE (init 1) (prodSteps 3 0)).prod.pc = PubPc.loadHead ∧
      u64sub (run RING_SIZE (init 1) (prodSteps 3 0)).region.hdr.head
        (run RING_SIZE (init 1) (prodSteps 3 0)).region.hdr.tail < RING_SIZE ∧
      (run RING_SIZE (init 1) (prodSteps 3 0)).region.hdr.head + 1 < U64) ∧
    (run RING_SIZE (run RING_SIZE (init 1) (prodSteps 3 0)) (publishSchedule 0 7)).region.hdr.head =
      (run RING_SIZE (init 1) (prodSteps 3 0)).region.hdr.head + 1 ∧
    (run RING_SIZE (run RING_SIZE (init 1) (prodSteps 3 0)) (publishSchedule 0 7)).region.msgs
        ((run RING_SIZE (init 1) (prodSteps 3 0)).region.hdr.head % RING_SIZE) =
      { seq := (run RING_SIZE (init 1) (prodSteps 3 0)).prod.i, t_ns := 7,
        payload := ((run RING_SIZE (init 1) (prodSteps 3 0)).region.msgs
          ((run RING_SIZE (init 1) (prodSteps 3 0)).region.hdr.head % RING_SIZE)).payload } :=
  ⟨by decide,
   (C5_publish_effect RING_SIZE 0 7 (run RING_SIZE (init 1) (prodSteps 3 0))
      (by decide) (by decide) (by decide)).1.1,
   (C5_publish_effect RING_SIZE 0 7 (run RING_SIZE (init 1) (prodSteps 3 0))
      (by decide) (by decide) (by decide)).1.2.1⟩

/-- C6: in every state reached from a newly created region (counters not wrapped)
in which the consumer is about to read `head` (line 83) and `tail < head`, a consume
run without interference positions the consumer on slot `tail % cap`, which holds
exactly the message number `tail` of the publish history, then sets `tail` to
`tail + 1`; `head`, `initialized` and every slot are unchanged. No consumer step ever
writes `head`, `initialized` or a slot; the consume step of `shm_subscriber.cpp` has
the same effect. On a new region the first consume attempt returns to line 83 with
`tail = 0`; after one publish of `(0, t)` the next attempt is positioned on slot 0
holding `seq = 0`, `t_ns = t`. -/
theorem C6_consume_effect (cap count : Nat) (sched : List Action)
    (hnw : (run cap (init count) sched).hist.published.length < U64)
    (hpc : (run cap (init count) sched).cons.pc = SubPc.loadHead)
    (hne : (run cap (init count) sched).region.hdr.tail <
      (run cap (init count) sched).region.hdr.head) :
    ((run cap (run cap (init count) sched) (consSteps 2)).cons.pc = SubPc.storeTail ∧
      (run cap (run cap (init count) sched) (consSteps 2)).cons.idx =
        (run cap (init count) sched).region.hdr.tail % cap ∧
      (run cap (init count) sched).hist.published[
          (run cap (init count) sched).region.hdr.tail]? =
        some ((run cap (init count) sched).region.msgs
          ((run cap (init count) sched).region.hdr.tail % cap)) ∧
      (run cap (run cap (init count) sched) (consSteps 3)).region.hdr.tail =
        (run cap (init count) sched).region.hdr.tail + 1 ∧
      (run cap (run cap (init count) sched) (consSteps 3)).region.hdr.head =
        (run cap (init count) sched).region.hdr.head ∧
      (run cap (run cap (init count) sched) (consSteps 3)).region.hdr.initialized =
        (run cap (init count) sched).region.hdr.initialized ∧
      (run cap (run cap (init count) sched) (consSteps 3)).region.msgs =
        (run cap (init count) sched).region.msgs) ∧
    (∀ (r : Region) (c : Consumer),
      (consStep cap r c).1.hdr.head = r.hdr.head ∧
      (consStep cap r c).1.hdr.initialized = r.hdr.initialized ∧
      (consStep cap r c).1.msgs = r.msgs) ∧
    (plainConsume cap (run cap (init count) sched).region =
      some ((run cap (init count) sched).region.hdr.tail % cap,
        { hdr := { (run cap (init count) sched).region.hdr with
                     tail := (run cap (init count) sched).region.hdr.tail + 1 },
          msgs := (run cap (init count) sched).region.msgs })) ∧
    ((run RING_SIZE (init 1) (prodSteps 3 0 ++ consSteps 2)).cons.pc = SubPc.loadHead ∧
      (run RING_SIZE (init 1) (prodSteps 3 0 ++ consSteps 2)).region.hdr.tail = 0 ∧
      plainConsume RING_SIZE (run RING_SIZE (init 1) (prodSteps 3 0)).region = none) ∧
    (∀ t : Nat,
      (run RING_SIZE (init 1)
        (prodSteps 3 0 ++ consSteps 2 ++ publishSchedule 0 t ++ consSteps 2)).cons.pc =
          SubPc.storeTail ∧
      (run RING_SIZE (init 1)
        (prodSteps 3 0 ++ consSteps 2 ++ publishSchedule 0 t ++ consSteps 2)).cons.idx = 0 ∧
      ((run RING_SIZE (init 1)
        (prodSteps 3 0 ++ consSteps 2 ++ publishSchedule 0 t ++ consSteps 2)).region.msgs 0).seq
          = 0 ∧
      ((run RING_SIZE (init 1)
        (prodSteps 3 0 ++ consSteps 2 ++ publishSchedule 0 t ++ consSteps 2)).region.msgs 0).t_ns
          = t ∧
      (run RING_SIZE (init 1)
        (prodSteps 3 0 ++ consSteps 2 ++ publishSchedule 0 t ++ consSteps 3)).region.hdr.tail
          = 1) := by
  have hinv := Inv.reach sched (Inv.fresh cap count) hnw
  generalize run cap (init count) sched = s at hnw hpc hne hinv
  have hslot := hinv.slots _ (Nat.le_refl _) hne
  have hhead := hinv.head_eq
  have hinc : u64inc s.region.hdr.tail = s.region.hdr.tail + 1 := by
    unfold u64inc U64; unfold U64 at hnw; omega
  refine ⟨?_, consStep_frame cap, ?_, ?_, ?_⟩
  · obtain ⟨r, p, ⟨cpc, cch, cct, cidx, cn, cbo, crep⟩, hist⟩ := s
    simp only at hpc hne hinc hslot
    subst hpc
    simp [consSteps, run, step, consStep, hne, hinc, hslot]
  · simp [plainConsume, hne, hinc]
  · exact ⟨by decide, by decide, rfl⟩
  · intro t
    exact ⟨rfl, rfl, rfl, rfl, rfl⟩

/-- C6 at a concrete run: one message published on a ring of 4 slots, then consumed. -/
theorem C6_consume_effect_witness :
    ((run 4 (init 1) (prodSteps 10 5)).hist.published.length < U64 ∧
      (run 4 (init 1) (prodSteps 10 5)).cons.pc = SubPc.loadHead ∧
      (run 4 (init 1) (prodSteps 10 5)).region.hdr.tail <
        (run 4 (init 1) (prodSteps 10 5)).region.hdr.head) ∧
    ((run 4 (run 4 (init 1) (prodSteps 10 5)) (consSteps 2)).cons.pc = SubPc.storeTail ∧
      (run 4 (run 4 (init 1) (prodSteps 10 5)) (consSteps 2)).cons.idx =
        (run 4 (init 1) (prodSteps 10 5)).region.hdr.tail % 4 ∧
      (run 4 (init 1) (prodSteps 10 5)).hist.published[
          (run 4 (init 1) (prodSteps 10 5)).region.hdr.tail]? =
        some ((run 4 (init 1) (prodSteps 10 5)).region.msgs
          ((run 4 (init 1) (prodSteps 10 5)).region.hdr.tail % 4)) ∧
      (run 4 (run 4 (init 1) (prodSteps 10 5)) (consSteps 3)).region.hdr.tail =
        (run 4 (init 1) (prodSteps 10 5)).region.hdr.tail + 1 ∧
      (run 4 (run 4 (init 1) (prodSteps 10 5)) (consSteps 3)).region.hdr.head =
        (run 4 (init 1) (prodSteps 10 5)).region.hdr.head ∧
      (run 4 (run 4 (init 1) (prodSteps 10 5)) (consSteps 3)).region.hdr.initialized =
        (run 4 (init 1) (prodSteps 10 5)).region.hdr.initialized ∧
      (run 4 (run 4 (init 1) (prodSteps 10 5)) (consSteps 3)).region.msgs =
        (run 4 (init 1) (prodSteps 10 5)).region.msgs) :=
  ⟨by decide,
   (C6_consume_effect 4 1 (prodSteps 10 5) (by decide) (by decide) (by decide)).1⟩

/-- The initialisation of lines 87-91 with at most one publisher alive at a time.
From any state in which the producer is
at the compare-exchange: if `initialized` is false the exchange succeeds (one more
reset is recorded, control enters the `if`) and after the two stores `initialized` is
true and `head = tail = 0`; if `initialized` is true the exchange fails, the region is
left as it was and control skips the `if`. Hence in every state reached from a newly
created region by producer steps, consumer steps and any number of producer and
consumer launches (counters not wrapped): at most one reset has happened, exactly one
as soon as `initialized` is true, which is the case as soon as the live producer is
past its compare-exchange; nothing is published or consumed before the reset is
complete; and `head` and `tail` count exactly the messages published and consumed. -/
theorem initialize_once_successive (cap count now : Nat) (sched : List Action)
    (hnw : (run cap (init count) sched).hist.published.length < U64) :
    (∀ s : System, s.prod.pc = PubPc.casInit → s.region.hdr.initialized = false →
      (step cap s (Action.prod now)).prod.pc = PubPc.initHead ∧
      (step cap s (Action.prod now)).hist.resets = s.hist.resets + 1 ∧
      (run cap s (prodSteps 3 now)).region.hdr.initialized = true ∧
      (run cap s (prodSteps 3 now)).region.hdr.head = 0 ∧
      (run cap s (prodSteps 3 now)).region.hdr.tail = 0 ∧
      (run cap s (prodSteps 3 now)).region.msgs = s.region.msgs ∧
      (run cap s (prodSteps 3 now)).prod.pc = loopTest s.prod.i s.prod.count ∧
      (run cap s (prodSteps 3 now)).hist.resets = s.hist.resets + 1) ∧
    (∀ s : System, s.prod.pc = PubPc.casInit → s.region.hdr.initialized = true →
      (step cap s (Action.prod now)).region = s.region ∧
      (step cap s (Action.prod now)).prod.pc = loopTest s.prod.i s.prod.count ∧
      (step cap s (Action.prod now)).hist.resets = s.hist.resets) ∧
    ((run cap (init count) sched).hist.resets ≤ 1 ∧
      ((run cap (init count) sched).hist.resets = 1 ↔
        (run cap (init count) sched).region.hdr.initialized = true) ∧
      ((run cap (init count) sched).prod.pc ≠ PubPc.casInit →
        (run cap (init count) sched).region.hdr.initialized = true) ∧
      ((run cap (init count) sched).region.hdr.initialized = false ∨
          (run cap (init count) sched).prod.pc.resetting = true →
        (run cap (init count) sched).hist.published = [] ∧
        (run cap (init count) sched).hist.consumed = 0) ∧
      (run cap (init count) sched).region.hdr.head =
        (run cap (init count) sched).hist.published.length ∧
      (run cap (init count) sched).region.hdr.tail =
        (run cap (init count) sched).hist.consumed) := by
  refine ⟨?_, ?_, ?_⟩
  · intro s hpc hini
    obtain ⟨⟨⟨head, tail, ini⟩, msgs⟩, ⟨pc, cnt, i, ch, ct, idx, nh, bo, rtts⟩, c, ⟨pub, consd, resets⟩⟩ := s
    simp only at hpc hini
    subst hpc hini
    simp [prodSteps, run, step, prodStep, recordProd]
  · intro s hpc hini
    obtain ⟨⟨⟨head, tail, ini⟩, msgs⟩, ⟨pc, cnt, i, ch, ct, idx, nh, bo, rtts⟩, c, ⟨pub, consd, resets⟩⟩ := s
    simp only at hpc hini
    subst hpc hini
    simp [step, prodStep, recordProd]
  · have hinv := Inv.reach sched (Inv.fresh cap count) hnw
    generalize run cap (init count) sched = s at hnw hinv
    have h1 := hinv.flag_false
    have h2 := hinv.flag_true
    have h3 := hinv.head_eq
    have h4 := hinv.tail_eq
    have h5 := hinv.tail_le
    refine ⟨?_, ?_, hinv.pFlag, ?_, h3, h4⟩
    · cases hi : s.region.hdr.initialized
      · have := (h1 hi).2; omega
      · have := h2 hi; omega
    · constructor
      · intro hr
        cases hi : s.region.hdr.initialized
        · have := (h1 hi).2; omega
        · rfl
      · exact h2
    · intro hi
      have : s.region.hdr.head = 0 := hi.elim (fun h => (h1 h).1) hinv.pReset
      constructor
      · exact List.eq_nil_of_length_eq_zero (by omega)
      · omega

/-- Three producers launched one after the other on a ring of
two slots, two messages published, none consumed, one reset. -/
theorem initialize_once_successive_at_fullRing :
    ((run 2 (init 1) fullRing).hist.published.length < U64 ∧
      (run 2 (init 1) fullRing).hist.resets = 1 ∧
      (run 2 (init 1) fullRing).region.hdr.head = 2) ∧
    ((run 2 (init 1) fullRing).hist.resets ≤ 1 ∧
      ((run 2 (init 1) fullRing).hist.resets = 1 ↔
        (run 2 (init 1) fullRing).region.hdr.initialized = true) ∧
      ((run 2 (init 1) fullRing).prod.pc ≠ PubPc.casInit →
        (run 2 (init 1) fullRing).region.hdr.initialized = true) ∧
      ((run 2 (init 1) fullRing).region.hdr.initialized = false ∨
          (run 2 (init 1) fullRing).prod.pc.resetting = true →
        (run 2 (init 1) fullRing).hist.published = [] ∧
        (run 2 (init 1) fullRing).hist.consumed = 0) ∧
      (run 2 (init 1) fullRing).region.hdr.head =
        (run 2 (init 1) fullRing).hist.published.length ∧
      (run 2 (init 1) fullRing).region.hdr.tail =
        (run 2 (init 1) fullRing).hist.consumed) :=
  ⟨by decide, (initialize_once_successive 2 1 0 fullRing (by decide)).2.2⟩

/-- C8: `wait()` on a waiter whose counter `c` is non-negative and below `2 ^ 30`
(so that `c * 2` is an `int`) yields exactly `c` times and sets the counter to
`min (2 * c) max_delay`. For the default-constructed waiter, and for any waiter
reached from it that has just been reset, the `k`-th consecutive `wait()` yields
`min (2 ^ k) 1000` times; under any sequence of `wait()` and `reset()` calls on the
default-constructed waiter the counter stays between 1 and 1000 and the ceiling
stays 1000. -/
theorem C8_backoff_wait :
    (∀ b : ExponentialBackoff, 0 ≤ b.current_delay → b.current_delay < 1073741824 →
      ((b.wait).1 : Int) = b.current_delay ∧
      (b.wait).2.current_delay = min (2 * b.current_delay) b.max_delay ∧
      (b.wait).2.max_delay = b.max_delay) ∧
    (∀ k : Nat,
      ((ExponentialBackoff.applyAll ExponentialBackoff.default
        (List.replicate k ExponentialBackoff.Call.wait)).wait).1 = min (2 ^ k) 1000) ∧
    (∀ (cs : List ExponentialBackoff.Call) (k : Nat),
      ((ExponentialBackoff.applyAll
        (ExponentialBackoff.applyAll ExponentialBackoff.default cs).reset
        (List.replicate k ExponentialBackoff.Call.wait)).wait).1 = min (2 ^ k) 1000) ∧
    (∀ cs : List ExponentialBackoff.Call,
      1 ≤ (ExponentialBackoff.applyAll ExponentialBackoff.default cs).current_delay ∧
      (ExponentialBackoff.applyAll ExponentialBackoff.default cs).current_delay ≤ 1000 ∧
      (ExponentialBackoff.applyAll ExponentialBackoff.default cs).max_delay = 1000) := by
  have key : ∀ (b : ExponentialBackoff) (k : Nat), b.max_delay = 1000 → b.current_delay = 1 →
      ((ExponentialBackoff.applyAll b
        (List.replicate k ExponentialBackoff.Call.wait)).wait).1 = min (2 ^ k) 1000 := by
    intro b k hm h1
    obtain ⟨_, hd⟩ := ExponentialBackoff.waits_delay b k hm h1
    rw [ExponentialBackoff.wait_yields, hd]
    have hpos : (1 : Nat) ≤ 2 ^ k := Nat.one_le_two_pow
    have hcast : ((2 : Int) ^ k) = ((2 ^ k : Nat) : Int) := by push_cast; rfl
    rw [hcast]
    omega
  refine ⟨?_, ?_, ?_, ?_⟩
  · intro b h0 h1
    refine ⟨?_, ExponentialBackoff.wait_delay b h0 h1, rfl⟩
    rw [ExponentialBackoff.wait_yields]
    omega
  · intro k
    exact key _ k rfl rfl
  · intro cs k
    have hb := ExponentialBackoff.applyAll_bounds ExponentialBackoff.default cs rfl
      (by decide) (by decide)
    exact key _ k hb.1 rfl
  · intro cs
    have hb := ExponentialBackoff.applyAll_bounds ExponentialBackoff.default cs rfl
      (by decide) (by decide)
    exact ⟨hb.2.1, hb.2.2, hb.1⟩

/-- C8 at the waiter with counter 512 and ceiling 1000: 512 yields, then counter 1000. -/
theorem C8_backoff_wait_witness :
    ((0 : Int) ≤ (ExponentialBackoff.new 512 1000).current_delay ∧
      (ExponentialBackoff.new 512 1000).current_delay < 1073741824) ∧
    ((((ExponentialBackoff.new 512 1000).wait).1 : Int) =
        (ExponentialBackoff.new 512 1000).current_delay ∧
      ((ExponentialBackoff.new 512 1000).wait).2.current_delay =
        min (2 * (ExponentialBackoff.new 512 1000).current_delay)
          (ExponentialBackoff.new 512 1000).max_delay ∧
      ((ExponentialBackoff.new 512 1000).wait).2.max_delay =
        (ExponentialBackoff.new 512 1000).max_delay) :=
  ⟨by decide, C8_backoff_wait.1 (ExponentialBackoff.new 512 1000) (by decide) (by decide)⟩

/-- C9 as stated fails: a waiter constructed with initial delay 2 and ceiling 1000
has counter 1, not 2, after `reset()`, with or without a `wait()` before it. -/
theorem C9_reset_counterexample :
    ((1 : Int) ≤ 2 ∧ (2 : Int) ≤ 1000) ∧
    (ExponentialBackoff.new 2 1000).reset.current_delay = 1 ∧
    (ExponentialBackoff.new 2 1000).reset.current_delay ≠
      (ExponentialBackoff.new 2 1000).current_delay ∧
    (((ExponentialBackoff.new 2 1000).wait).2).reset.current_delay ≠
      (ExponentialBackoff.new 2 1000).current_delay := by
  decide

/-- C9 amended: for every initial delay `d` and ceiling `m`, after any sequence of
`wait()` and `reset()` calls, `reset()` sets the delay counter to 1 and keeps the
ceiling `m`; the result is the waiter as constructed exactly when `d = 1`, which is
the case for the default-constructed waiter. -/
theorem C9_reset_sets_one (d m : Int) (cs : List ExponentialBackoff.Call) :
    (ExponentialBackoff.applyAll (ExponentialBackoff.new d m) cs).reset.current_delay = 1 ∧
    (ExponentialBackoff.applyAll (ExponentialBackoff.new d m) cs).reset.max_delay = m ∧
    ((ExponentialBackoff.applyAll (ExponentialBackoff.new d m) cs).reset =
      ExponentialBackoff.new d m ↔ d = 1) ∧
    (ExponentialBackoff.applyAll ExponentialBackoff.default cs).reset =
      ExponentialBackoff.default := by
  have hmax : ∀ (b : ExponentialBackoff) (cs : List ExponentialBackoff.Call),
      (ExponentialBackoff.applyAll b cs).max_delay = b.max_delay := by
    intro b cs
    induction cs generalizing b with
    | nil => rfl
    | cons c rest ih =>
      cases c with
      | wait => exact (ih (b.wait).2).trans rfl
      | reset => exact (ih b.reset).trans rfl
  have h1 := hmax (ExponentialBackoff.new d m) cs
  have h2 := hmax ExponentialBackoff.default cs
  generalize ExponentialBackoff.applyAll (ExponentialBackoff.new d m) cs = b at h1
  generalize ExponentialBackoff.applyAll ExponentialBackoff.default cs = b2 at h2
  obtain ⟨c1, m1⟩ := b
  obtain ⟨c2, m2⟩ := b2
  simp only [ExponentialBackoff.new, ExponentialBackoff.default] at h1 h2
  subst h1 h2
  refine ⟨rfl, rfl, ?_, rfl⟩
  simp only [ExponentialBackoff.reset, ExponentialBackoff.new, ExponentialBackoff.mk.injEq,
    and_true]
  exact eq_comm

/-- A producer launched with `count = n` (`0 ≤ n < 2 ^ 31`, an `int`) on any
region, run to the end of its loop under any interleaving with consumer steps and
consumer launches, has published exactly `n` messages, the `i`-th carrying `seq = i`;
`head` is the value it had after the initialisation plus `n` (modulo `2 ^ 64`,
exactly when that sum does not wrap); and `rtts` holds exactly `n` samples. -/
theorem producer_run_complete (cap n : Nat) (s0 : System) (sched : List Action)
    (hn : n < 2147483648) (hp : s0.prod = Producer.start n)
    (hwf : s0.region.hdr.head < U64) (hs : prodRun sched = true)
    (hdone : (run cap s0 sched).prod.pc = PubPc.done) :
    ∃ sent : List ShmMsg,
      (run cap s0 sched).hist.published = s0.hist.published ++ sent ∧
      sent.length = n ∧
      (∀ i, i < n → ∃ m, sent[i]? = some m ∧ m.seq = i) ∧
      (run cap s0 sched).region.hdr.head =
        (headBase s0.region.hdr.head s0.region.hdr.initialized + n) % U64 ∧
      (headBase s0.region.hdr.head s0.region.hdr.initialized + n < U64 →
        (run cap s0 sched).region.hdr.head =
          headBase s0.region.hdr.head s0.region.hdr.initialized + n) ∧
      (run cap s0 sched).prod.rtts.length = n ∧
      (run cap s0 sched).prod.i = n := by
  have hnU : n < U64 := by unfold U64; omega
  obtain ⟨sent, hpub, hb⟩ := RunInv.along cap sched hs hnU hwf
    (RunInv.start s0 n hnU hp)
  have hi := hb.fin hdone
  have hl := hb.len
  have hh := hb.headOk (by rw [hdone]; rfl)
  have hr := hb.rtts_len
  simp only [hdone, PubPc.afterStore, Bool.false_eq_true, if_false, Nat.add_zero] at hl
  have hlen : sent.length = n := by omega
  refine ⟨sent, hpub, hlen, ?_, ?_, ?_, by omega, hi⟩
  · intro i hin
    have hlt : i < sent.length := by omega
    refine ⟨sent[i], List.getElem?_eq_getElem hlt, ?_⟩
    exact hb.seqs i sent[i] (List.getElem?_eq_getElem hlt)
  · rw [hh, hlen]
  · intro hsum
    rw [hh, hlen]
    exact Nat.mod_eq_of_lt hsum

theorem prodRun_append (xs ys : List Action) :
    prodRun (xs ++ ys) = (prodRun xs && prodRun ys) := by
  induction xs with
  | nil => simp [prodRun]
  | cons a rest ih =>
    cases a <;> simp [prodRun, ih]

theorem consStep_tail_le {cap : Nat} {s : System} (h : Inv cap s)
    (hnw : s.hist.published.length < U64) :
    s.region.hdr.tail ≤ (consStep cap s.region s.cons).1.hdr.tail := by
  have hc := h.cTail
  have he := h.head_eq
  unfold consStep
  split
  · exact Nat.le_refl _
  · split <;> exact Nat.le_refl _
  · rename_i hpc
    obtain ⟨e1, e2, _⟩ := hc hpc
    simp only [e1]
    unfold u64inc U64; unfold U64 at hnw; omega

theorem prodStep_sample {cap now : Nat} {r : Region} {p : Producer}
    (h : (prodStep cap now r p).2.pc = PubPc.sample) :
    p.pc = PubPc.waitTail ∧ (prodStep cap now r p).2.i = p.i ∧ p.i < r.hdr.tail := by
  unfold prodStep at h ⊢
  split at h <;> try (simp [loopTest] at h; done)
  · split at h
    · simp at h
    · simp [loopTest] at h; split at h <;> cases h
  · simp [loopTest] at h; split at h <;> cases h
  · split at h <;> simp at h
  · rename_i hpc
    split at h
    · rename_i ht
      simp [hpc, ht]
    · simp [hpc] at h
  · simp [loopTest] at h; split at h <;> cases h
  · rename_i hpc
    rw [hpc] at h; cases h

/-- On a new region, within one producer run, the producer leaves its wait loop
only once the consumer has taken the message of the current iteration: at the
sample point `head = i + 1 = tail` and every published message has been consumed. -/
theorem wait_end_on_new_region (cap count : Nat) (sched : List Action)
    (hs : prodRun sched = true)
    (hpc : (run cap (init count) sched).prod.pc = PubPc.sample) :
    (run cap (init count) sched).prod.i < (run cap (init count) sched).region.hdr.tail ∧
      (run cap (init count) sched).region.hdr.head = (run cap (init count) sched).prod.i + 1 ∧
      (run cap (init count) sched).region.hdr.tail =
        (run cap (init count) sched).region.hdr.head ∧
      (run cap (init count) sched).hist.consumed =
        (run cap (init count) sched).hist.published.length := by
  have key : ∀ sched : List Action, prodRun sched = true →
      (run cap (init count) sched).prod.pc = PubPc.sample →
      (run cap (init count) sched).prod.i < (run cap (init count) sched).region.hdr.tail := by
    intro sched
    induction sched using List.reverseRecOn with
    | nil => intro _ h; simp [run, init, Producer.start] at h
    | append_singleton rest a ih =>
      intro hs hpc
      rw [prodRun_append, Bool.and_eq_true] at hs
      obtain ⟨hs1, hs2⟩ := hs
      have hinv := Inv.of_prodRun cap count rest hs1
      have hnw := published_lt_of_prodRun cap count rest hs1
      have ih := ih hs1
      rw [run_append] at hpc ⊢
      change (step cap (run cap (init count) rest) a).prod.pc = PubPc.sample at hpc
      show (step cap (run cap (init count) rest) a).prod.i <
        (step cap (run cap (init count) rest) a).region.hdr.tail
      generalize run cap (init count) rest = s at hinv hnw ih hpc
      cases a with
      | prod now =>
        obtain ⟨_, e2, e3⟩ := prodStep_sample hpc
        show (prodStep cap now s.region s.prod).2.i < (prodStep cap now s.region s.prod).1.hdr.tail
        rw [prodStep_tail now hinv, e2]
        exact e3
      | cons =>
        have := consStep_tail_le hinv hnw
        have := ih hpc
        show s.prod.i < (consStep cap s.region s.cons).1.hdr.tail
        omega
      | spawnProd c => simp [prodRun] at hs2
      | spawnCons => exact ih hpc
  have hlt := key sched hs hpc
  have hinv := Inv.of_prodRun cap count sched hs
  have h0 : RunInv (count % U64) 0 false [] (init count) :=
    RunInv.start (init count) (count % U64) (mod_U64_lt count) (start_mod count)
  obtain ⟨sent, hpub, hb⟩ := RunInv.along cap sched hs (mod_U64_lt count)
    (by unfold U64; omega) h0
  have hl := hb.len
  simp only [hpc, PubPc.afterStore, if_true] at hl
  rw [List.nil_append] at hpub
  have he := hinv.head_eq
  have ht := hinv.tail_eq
  have hle := hinv.tail_le
  rw [hpub] at he
  refine ⟨hlt, by omega, by omega, ?_⟩
  rw [hpub]; omega

/-- C11 fails on a region left behind by an earlier run. After a first run with
`count = 1` has completed (`initialized` true, `head = tail = 1`), a second producer
with `count = 1` publishes its message 0 at head position 1; its wait loop observes
`tail = 1 > 0 = i` and ends at once, while `tail` is not greater than the position 1
of the message: two messages are published, one is consumed, and the consumer has
made no step since the second launch. -/
theorem C11_wait_ends_unconsumed :
    ((run RING_SIZE (init 1) (fullRun 1)).prod.pc = PubPc.done ∧
      (run RING_SIZE (init 1) (fullRun 1)).region.hdr.initialized = true ∧
      (run RING_SIZE (init 1) (fullRun 1)).region.hdr.head = 1 ∧
      (run RING_SIZE (init 1) (fullRun 1)).region.hdr.tail = 1) ∧
    ((run RING_SIZE (init 1) (fullRun 1 ++ [Action.spawnProd 1] ++ prodSteps 8 7)).prod.pc =
        PubPc.waitTail ∧
      (run RING_SIZE (init 1) (fullRun 1 ++ [Action.spawnProd 1] ++ prodSteps 8 7)).prod.i = 0 ∧
      (run RING_SIZE (init 1)
        (fullRun 1 ++ [Action.spawnProd 1] ++ prodSteps 8 7)).region.hdr.head = 2 ∧
      ((run RING_SIZE (init 1)
        (fullRun 1 ++ [Action.spawnProd 1] ++ prodSteps 8 7)).region.msgs (1 % RING_SIZE)).seq
          = 0) ∧
    ((run RING_SIZE (init 1) secondRun).prod.pc = PubPc.sample ∧
      (run RING_SIZE (init 1) secondRun).prod.i = 0 ∧
      (run RING_SIZE (init 1) secondRun).prod.i <
        (run RING_SIZE (init 1) secondRun).region.hdr.tail ∧
      (run RING_SIZE (init 1) secondRun).region.hdr.tail = 1 ∧
      (run RING_SIZE (init 1) secondRun).region.hdr.head = 2 ∧
      ¬ (1 < (run RING_SIZE (init 1) secondRun).region.hdr.tail) ∧
      (run RING_SIZE (init 1) secondRun).hist.published.length = 2 ∧
      (run RING_SIZE (init 1) secondRun).hist.consumed = 1) := by
  decide

/-- C12 as stated fails for the consumer: on a store with no file, the consumer's
region setup fails at `open` and leaves the store without the file. -/
theorem C12_consumer_counterexample :
    (Store.empty.size ("/tmp/" ++ "ring")).isNone = true ∧
    (consumerAttach 24 Faults.none "ring" Store.empty).2 = Attach.failed "open" ∧
    ((consumerAttach 24 Faults.none "ring" Store.empty).1.size ("/tmp/" ++ "ring")).isNone =
      true := by
  decide

/-- C12 amended: the producer creates the region. For every name and every store,
when no system call fails the producer's setup maps the file and leaves it with
exactly `sizeof(ShmHeader) + RING_SIZE * sizeof(ShmMsg)` bytes (created if it was
missing, resized otherwise), touching no other file. The consumer's setup never
changes the store; when the file exists and no system call fails it maps it; when
the file does not exist it fails at `open`, whatever else happens. -/
theorem C12_attach_roles (hdrBytes : Nat) (arg : String) (st : Store) :
    ((producerAttach hdrBytes Faults.none arg st).2 =
        Attach.mapped ("/tmp/" ++ arg) (total_size hdrBytes) ∧
      (producerAttach hdrBytes Faults.none arg st).1.size ("/tmp/" ++ arg) =
        some (total_size hdrBytes) ∧
      (∀ q, q ≠ "/tmp/" ++ arg →
        (producerAttach hdrBytes Faults.none arg st).1.size q = st.size q)) ∧
    (∀ f : Faults, (consumerAttach hdrBytes f arg st).1 = st) ∧
    ((st.size ("/tmp/" ++ arg)).isSome = true →
      (consumerAttach hdrBytes Faults.none arg st).2 =
        Attach.mapped ("/tmp/" ++ arg) (total_size hdrBytes)) ∧
    ((st.size ("/tmp/" ++ arg)).isNone = true →
      ∀ f : Faults, (consumerAttach hdrBytes f arg st).2 = Attach.failed "open") ∧
    total_size hdrBytes = hdrBytes + 1024 * 64 := by
  refine ⟨⟨rfl, ?_, ?_⟩, ?_, ?_, ?_, rfl⟩
  · simp [producerAttach, Faults.none, Store.set]
  · intro q hq
    simp [producerAttach, Faults.none, Store.set, hq]
  · intro f
    unfold consumerAttach
    split
    · rfl
    · split <;> rfl
  · intro h
    have hn : (st.size ("/tmp/" ++ arg)).isNone = false := by
      cases hs : st.size ("/tmp/" ++ arg) <;> simp_all
    simp [consumerAttach, Faults.none, hn]
  · intro h f
    simp [consumerAttach, h]

/-- C12 amended, at a concrete store: the producer's setup on the empty store
creates `/tmp/ring`, after which the consumer's setup maps it; before that the
consumer's setup fails. -/
theorem C12_attach_roles_witness :
    ((Store.empty.size ("/tmp/" ++ "ring")).isNone = true ∧
      (((producerAttach 24 Faults.none "ring" Store.empty).1).size ("/tmp/" ++ "ring")).isSome
        = true) ∧
    (∀ f : Faults, (consumerAttach 24 f "ring" Store.empty).2 = Attach.failed "open") ∧
    (consumerAttach 24 Faults.none "ring" (producerAttach 24 Faults.none "ring" Store.empty).1).2 =
      Attach.mapped ("/tmp/" ++ "ring") (total_size 24) :=
  ⟨by decide,
   (C12_attach_roles 24 "ring" Store.empty).2.2.2.1 (by decide),
   (C12_attach_roles 24 "ring" (producerAttach 24 Faults.none "ring" Store.empty).1).2.2.1
     (by decide)⟩

theorem foldl_add_eq_sum (l : List ℚ) (a : ℚ) :
    l.foldl (fun acc v => acc + v) a = a + l.sum := by
  induction l generalizing a with
  | nil => simp
  | cons x xs ih => rw [List.foldl_cons, ih, List.sum_cons, add_assoc]

theorem sortSamples_le {l : List ℚ} (hs : l.Sorted (fun a b => a ≤ b)) {i j : Nat}
    (hij : i ≤ j) (hi : i < l.length) (hj : j < l.length) : l[i] ≤ l[j] := by
  rcases Nat.eq_or_lt_of_le hij with h | h
  · subst h; exact le_refl _
  · exact List.pairwise_iff_getElem.mp hs i j hi hj h

/-- C13: for every non-empty list of `n` samples the statistics code reads inside
the vector and reports: the count `n`; the median, 95th and 99th percentile as the
elements of the ascending-sorted samples (a sorted permutation of the samples) at
indices `n / 2`, `floor (95 * n / 100)` and `floor (99 * n / 100)`, each `< n`; these
are samples and `min ≤ median ≤ p95 ≤ p99 ≤ max` for the least and greatest sample;
the mean is `sum / n` and the one-way value is `mean / 2`. -/
theorem C13_summary_statistics (rtts : List ℚ) (hne : rtts ≠ []) :
    ∃ sm : Summary, summarize rtts = some sm ∧
      sm.count = rtts.length ∧
      (sortSamples rtts).Perm rtts ∧
      (sortSamples rtts).Sorted (fun a b => a ≤ b) ∧
      (rtts.length / 2 < rtts.length ∧ pctIndex rtts.length 95 < rtts.length ∧
        pctIndex rtts.length 99 < rtts.length) ∧
      (pctIndex rtts.length 95 = Nat.floor ((95 : ℚ) * rtts.length / 100) ∧
        pctIndex rtts.length 99 = Nat.floor ((99 : ℚ) * rtts.length / 100) ∧
        rtts.length / 2 = Nat.floor ((rtts.length : ℚ) / 2)) ∧
      ((sortSamples rtts)[rtts.length / 2]? = some sm.median ∧
        (sortSamples rtts)[pctIndex rtts.length 95]? = some sm.p95 ∧
        (sortSamples rtts)[pctIndex rtts.length 99]? = some sm.p99) ∧
      (sm.median ∈ rtts ∧ sm.p95 ∈ rtts ∧ sm.p99 ∈ rtts) ∧
      (∃ lo hi : ℚ, lo ∈ rtts ∧ hi ∈ rtts ∧ (∀ x ∈ rtts, lo ≤ x ∧ x ≤ hi) ∧
        lo ≤ sm.median ∧ sm.median ≤ sm.p95 ∧ sm.p95 ≤ sm.p99 ∧ sm.p99 ≤ hi) ∧
      sm.avg = rtts.sum / rtts.length ∧
      sm.one_way = sm.avg / 2 := by
  have hn : 0 < rtts.length := List.length_pos.mpr hne
  have hperm : (sortSamples rtts).Perm rtts := List.perm_insertionSort _ rtts
  have hsorted : (sortSamples rtts).Sorted (fun a b => a ≤ b) :=
    List.sorted_insertionSort _ rtts
  have hlen : (sortSamples rtts).length = rtts.length := List.length_insertionSort _ rtts
  have h50 : rtts.length / 2 < rtts.length := by omega
  have h95 : pctIndex rtts.length 95 < rtts.length := by unfold pctIndex; omega
  have h99 : pctIndex rtts.length 99 < rtts.length := by unfold pctIndex; omega
  have i0 : 0 < (sortSamples rtts).length := by omega
  have i50 : rtts.length / 2 < (sortSamples rtts).length := by omega
  have i95 : pctIndex rtts.length 95 < (sortSamples rtts).length := by omega
  have i99 : pctIndex rtts.length 99 < (sortSamples rtts).length := by omega
  have iN : rtts.length - 1 < (sortSamples rtts).length := by omega
  have g50 := List.getElem?_eq_getElem i50
  have g95 := List.getElem?_eq_getElem i95
  have g99 := List.getElem?_eq_getElem i99
  have hsum := foldl_add_eq_sum rtts 0
  rw [zero_add] at hsum
  refine ⟨{ count := rtts.length, avg := rtts.sum / rtts.length,
            median := (sortSamples rtts)[rtts.length / 2],
            p95 := (sortSamples rtts)[pctIndex rtts.length 95],
            p99 := (sortSamples rtts)[pctIndex rtts.length 99],
            one_way := rtts.sum / rtts.length / 2 }, ?_, rfl, hperm, hsorted, ⟨h50, h95, h99⟩,
          ⟨?_, ?_, ?_⟩, ⟨g50, g95, g99⟩, ⟨?_, ?_, ?_⟩, ?_, rfl, rfl⟩
  · simp only [summarize, g50, g95, g99, hsum]
  · unfold pctIndex
    rw [show (95 : ℚ) * rtts.length / 100 = ((rtts.length * 95 : Nat) : ℚ) / (100 : Nat) by
      push_cast; ring]
    exact (Nat.floor_div_eq_div _ _).symm
  · unfold pctIndex
    rw [show (99 : ℚ) * rtts.length / 100 = ((rtts.length * 99 : Nat) : ℚ) / (100 : Nat) by
      push_cast; ring]
    exact (Nat.floor_div_eq_div _ _).symm
  · rw [show (rtts.length : ℚ) / 2 = ((rtts.length : Nat) : ℚ) / (2 : Nat) by push_cast; ring]
    exact (Nat.floor_div_eq_div _ _).symm
  · exact hperm.mem_iff.mp (List.getElem_mem i50)
  · exact hperm.mem_iff.mp (List.getElem_mem i95)
  · exact hperm.mem_iff.mp (List.getElem_mem i99)
  · refine ⟨(sortSamples rtts)[0], (sortSamples rtts)[rtts.length - 1],
      hperm.mem_iff.mp (List.getElem_mem i0), hperm.mem_iff.mp (List.getElem_mem iN), ?_,
      sortSamples_le hsorted (Nat.zero_le _) i0 i50,
      sortSamples_le hsorted (by unfold pctIndex; omega) i50 i95,
      sortSamples_le hsorted (by unfold pctIndex; omega) i95 i99,
      sortSamples_le hsorted (by omega) i99 iN⟩
    intro x hx
    obtain ⟨k, hk, rfl⟩ := List.getElem_of_mem (hperm.mem_iff.mpr hx)
    exact ⟨sortSamples_le hsorted (Nat.zero_le _) i0 hk,
      sortSamples_le hsorted (by omega) hk iN⟩

/-- C13 at the samples 5, 1, 3. -/
theorem C13_summary_statistics_witness :
    ([5, 1, 3] : List ℚ) ≠ [] ∧
    ∃ sm : Summary, summarize [5, 1, 3] = some sm ∧
      sm.count = ([5, 1, 3] : List ℚ).length ∧
      (sortSamples [5, 1, 3]).Perm [5, 1, 3] ∧
      (sortSamples [5, 1, 3]).Sorted (fun a b => a ≤ b) ∧
      (([5, 1, 3] : List ℚ).length / 2 < ([5, 1, 3] : List ℚ).length ∧
        pctIndex ([5, 1, 3] : List ℚ).length 95 < ([5, 1, 3] : List ℚ).length ∧
        pctIndex ([5, 1, 3] : List ℚ).length 99 < ([5, 1, 3] : List ℚ).length) ∧
      (pctIndex ([5, 1, 3] : List ℚ).length 95 =
          Nat.floor ((95 : ℚ) * ([5, 1, 3] : List ℚ).length / 100) ∧
        pctIndex ([5, 1, 3] : List ℚ).length 99 =
          Nat.floor ((99 : ℚ) * ([5, 1, 3] : List ℚ).length / 100) ∧
        ([5, 1, 3] : List ℚ).length / 2 = Nat.floor ((([5, 1, 3] : List ℚ).length : ℚ) / 2)) ∧
      ((sortSamples [5, 1, 3])[([5, 1, 3] : List ℚ).length / 2]? = some sm.median ∧
        (sortSamples [5, 1, 3])[pctIndex ([5, 1, 3] : List ℚ).length 95]? = some sm.p95 ∧
        (sortSamples [5, 1, 3])[pctIndex ([5, 1, 3] : List ℚ).length 99]? = some sm.p99) ∧
      (sm.median ∈ ([5, 1, 3] : List ℚ) ∧ sm.p95 ∈ ([5, 1, 3] : List ℚ) ∧
        sm.p99 ∈ ([5, 1, 3] : List ℚ)) ∧
      (∃ lo hi : ℚ, lo ∈ ([5, 1, 3] : List ℚ) ∧ hi ∈ ([5, 1, 3] : List ℚ) ∧
        (∀ x ∈ ([5, 1, 3] : List ℚ), lo ≤ x ∧ x ≤ hi) ∧
        lo ≤ sm.median ∧ sm.median ≤ sm.p95 ∧ sm.p95 ≤ sm.p99 ∧ sm.p99 ≤ hi) ∧
      sm.avg = ([5, 1, 3] : List ℚ).sum / ([5, 1, 3] : List ℚ).length ∧
      sm.one_way = sm.avg / 2 :=
  ⟨by decide, C13_summary_statistics [5, 1, 3] (by decide)⟩

theorem stoi_help (a : String) (c : Int) (h : stoi a = some c) :
    ¬ (a = "-h" ∨ a = "--help") := by
  have h1 : stoi "-h" = none := by decide
  have h2 : stoi "--help" = none := by decide
  rintro (rfl | rfl)
  · rw [h1] at h; cases h
  · rw [h2] at h; cases h

/-- C14 fails on the code: `main` calls `stoi(argv[1])` before it tests for `-h` and
`--help`, and `stoi` throws on both, so the usage text is never printed, for any
argument vector. Otherwise the outcome is as claimed: without arguments the tests
run with 10000 and 1000; with arguments, `count` and `warmup` are the values of
`stoi` on `argv[1]` and `argv[2]` when they parse, `warmup` being 1000 when `argv[2]`
is absent, and `main` is left by the exception when one of them does not parse. -/
theorem C14_help_never_printed :
    harnessMain ["./latency_test", "-h"] = HarnessOutcome.threw ∧
    harnessMain ["./latency_test", "--help"] = HarnessOutcome.threw ∧
    (stoi "-h" = none ∧ stoi "--help" = none) ∧
    (∀ argv : List String, (harnessMain argv).isUsage = false) ∧
    (∀ prog : String, harnessMain [prog] = HarnessOutcome.ran 10000 1000) ∧
    (∀ prog a : String, harnessMain [prog, a] =
      match stoi a with
      | some count => HarnessOutcome.ran count 1000
      | none => HarnessOutcome.threw) ∧
    (∀ (prog a b : String) (rest : List String), harnessMain (prog :: a :: b :: rest) =
      match stoi a, stoi b with
      | some count, some warmup => HarnessOutcome.ran count warmup
      | _, _ => HarnessOutcome.threw) := by
  have two : ∀ prog a : String, harnessMain [prog, a] =
      match stoi a with
      | some count => HarnessOutcome.ran count 1000
      | none => HarnessOutcome.threw := by
    intro prog a
    cases h : stoi a with
    | none => simp [harnessMain, h]
    | some c =>
      have hh := stoi_help a c h
      simp [harnessMain, h, hh]
  have three : ∀ (prog a b : String) (rest : List String),
      harnessMain (prog :: a :: b :: rest) =
      match stoi a, stoi b with
      | some count, some warmup => HarnessOutcome.ran count warmup
      | _, _ => HarnessOutcome.threw := by
    intro prog a b rest
    cases h : stoi a with
    | none => simp [harnessMain, h]
    | some c =>
      have hh := stoi_help a c h
      cases h2 : stoi b with
      | none => simp [harnessMain, h, h2]
      | some w => simp [harnessMain, h, h2, hh]
  refine ⟨by decide, by decide, by decide, ?_, ?_, two, three⟩
  · intro argv
    match argv with
    | [] => rfl
    | [prog] => rfl
    | [prog, a] =>
      rw [two]
      cases stoi a <;> rfl
    | prog :: a :: b :: rest =>
      rw [three]
      cases stoi a <;> cases stoi b <;> rfl
  · intro prog
    rfl

/-! ## The header reset with several publishers alive -/

theorem prodStep_flag (cap now : Nat) (r : Region) (p : Producer)
    (h : r.hdr.initialized = true ∨ p.pc = PubPc.casInit) :
    (prodStep cap now r p).1.hdr.initialized = true := by
  unfold prodStep
  split
  · split
    · rfl
    · rename_i hi
      simpa using hi
  all_goals
    rename_i hpc
    have hr : r.hdr.initialized = true := by
      rcases h with h | h
      · exact h
      · rw [hpc] at h; cases h
    first | exact hr | (split <;> exact hr)

theorem step_reset_count (cap : Nat) (s : System) (a : Action)
    (h : s.hist.resets = if s.region.hdr.initialized = true then 1 else 0) :
    (step cap s a).hist.resets =
      if (step cap s a).region.hdr.initialized = true then 1 else 0 := by
  obtain ⟨⟨⟨head, tail, ini⟩, msgs⟩, ⟨pc, count, i, ch, ct, idx, nh, bo, rtts⟩, c, ⟨pub, consd, resets⟩⟩ := s
  simp only at h
  cases a with
  | prod now =>
    cases pc <;> cases ini <;> simp_all [step, prodStep, recordProd, Region.setMsg] <;>
      (split <;> simp_all)
  | cons =>
    obtain ⟨f1, f2, f3⟩ := consStep_frame cap
      { hdr := { head := head, tail := tail, initialized := ini }, msgs := msgs } c
    simp only [step, f2]
    simp only [recordCons]
    split <;> exact h
  | spawnProd n => exact h
  | spawnCons => exact h

theorem crowdStep_none (cap : Nat) (c : Crowd) (k now : Nat) (h : c.prods[k]? = none) :
    crowdStep cap c (CrowdAction.prod k now) = c := by
  simp [crowdStep, h]

theorem crowdStep_some (cap : Nat) (c : Crowd) (k now : Nat) (p : Producer)
    (h : c.prods[k]? = some p) :
    crowdStep cap c (CrowdAction.prod k now) =
      { region := (step cap (c.view p) (Action.prod now)).region,
        prods := c.prods.set k (step cap (c.view p) (Action.prod now)).prod,
        cons := c.cons,
        hist := (step cap (c.view p) (Action.prod now)).hist } := by
  simp [crowdStep, h]

/-- What holds of the header flag in every state of a crowd started on a new region. -/
theorem crowd_reset_once (cap : Nat) (counts : List Nat) (sched : List CrowdAction) :
    (crowdRun cap (crowdInit counts) sched).hist.resets =
        (if (crowdRun cap (crowdInit counts) sched).region.hdr.initialized = true then 1 else 0) ∧
      (∀ p ∈ (crowdRun cap (crowdInit counts) sched).prods, p.pc ≠ PubPc.casInit →
        (crowdRun cap (crowdInit counts) sched).region.hdr.initialized = true) := by
  have key : ∀ (sched : List CrowdAction) (c : Crowd),
      (c.hist.resets = (if c.region.hdr.initialized = true then 1 else 0) ∧
        (∀ p ∈ c.prods, p.pc ≠ PubPc.casInit → c.region.hdr.initialized = true)) →
      ((crowdRun cap c sched).hist.resets =
        (if (crowdRun cap c sched).region.hdr.initialized = true then 1 else 0) ∧
        (∀ p ∈ (crowdRun cap c sched).prods, p.pc ≠ PubPc.casInit →
          (crowdRun cap c sched).region.hdr.initialized = true)) := by
    intro sched
    induction sched with
    | nil => intro c h; exact h
    | cons a rest ih =>
      intro c ⟨h1, h2⟩
      show _ ∧ ∀ p ∈ (crowdRun cap (crowdStep cap c a) rest).prods, _
      apply ih
      cases a with
      | prod k now =>
        cases hk : c.prods[k]? with
        | none => rw [crowdStep_none cap c k now hk]; exact ⟨h1, h2⟩
        | some p =>
          rw [crowdStep_some cap c k now p hk]
          obtain ⟨hlt, hget⟩ := List.getElem?_eq_some.mp hk
          have hp : p ∈ c.prods := hget ▸ List.getElem_mem hlt
          have hflag : (prodStep cap now c.region p).1.hdr.initialized = true := by
            apply prodStep_flag
            by_cases hc : p.pc = PubPc.casInit
            · exact Or.inr hc
            · exact Or.inl (h2 p hp hc)
          refine ⟨step_reset_count cap (c.view p) (Action.prod now) h1, ?_⟩
          intro q _ _
          exact hflag
      | cons =>
        refine ⟨step_reset_count cap (c.view (Producer.start 0)) Action.cons h1, ?_⟩
        intro q hq hne
        have := (consStep_frame cap c.region c.cons).2.1
        show (consStep cap c.region c.cons).1.hdr.initialized = true
        rw [this]
        exact h2 q hq hne
  apply key
  constructor
  · rfl
  · intro p hp hne
    simp only [crowdInit, List.mem_map] at hp
    obtain ⟨n, _, rfl⟩ := hp
    exact absurd rfl hne

/-! ## The report count, and the header reset under concurrent publishers -/

theorem summarize_count (rtts : List ℚ) (hne : rtts ≠ []) :
    ∃ sm : Summary, summarize rtts = some sm ∧ sm.count = rtts.length := by
  have hn : 0 < rtts.length := List.length_pos.mpr hne
  have hlen : (sortSamples rtts).length = rtts.length := List.length_insertionSort _ rtts
  have i50 : rtts.length / 2 < (sortSamples rtts).length := by omega
  have i95 : pctIndex rtts.length 95 < (sortSamples rtts).length := by
    unfold pctIndex; omega
  have i99 : pctIndex rtts.length 99 < (sortSamples rtts).length := by
    unfold pctIndex; omega
  have g50 := List.getElem?_eq_getElem i50
  have g95 := List.getElem?_eq_getElem i95
  have g99 := List.getElem?_eq_getElem i99
  refine ⟨{ count := rtts.length,
            avg := rtts.foldl (fun acc v => acc + v) 0 / rtts.length,
            median := (sortSamples rtts)[rtts.length / 2],
            p95 := (sortSamples rtts)[pctIndex rtts.length 95],
            p99 := (sortSamples rtts)[pctIndex rtts.length 99],
            one_way := rtts.foldl (fun acc v => acc + v) 0 / rtts.length / 2 }, ?_, rfl⟩
  simp only [summarize, g50, g95, g99]

/-- C7 fails on the code when two publishers are alive at once. On a new region
publisher 0 wins the compare-exchange and is delayed before its stores; publisher 1
loses it and publishes two messages, the consumer takes the first and is about to
take the second (`head = 2`, `tail = 1`); then publisher 0 stores `head = 0` and
`tail = 0` and the consumer stores `tail = 2`. Exactly one reset has happened, but the
final counters are `head = 0`, `tail = 2` with two messages published and two consumed
before the reset was complete: `tail` exceeds `head` and counts a consume that is not
after the reset. What holds: one process's initialisation wins exactly when
`initialized` was false and then zeroes both counters, loses and changes nothing
otherwise; and in every run of any number of publishers at most one reset happens,
exactly one once a publisher is past its compare-exchange. -/
theorem C7_reset_race :
    ((crowdRun RING_SIZE (crowdInit [1, 2]) raceBeforeReset).region.hdr.head = 2 ∧
      (crowdRun RING_SIZE (crowdInit [1, 2]) raceBeforeReset).region.hdr.tail = 1 ∧
      (crowdRun RING_SIZE (crowdInit [1, 2]) raceBeforeReset).region.hdr.initialized = true ∧
      (crowdRun RING_SIZE (crowdInit [1, 2]) raceBeforeReset).hist.resets = 1 ∧
      (crowdRun RING_SIZE (crowdInit [1, 2]) raceBeforeReset).prods.map (fun p => p.pc) =
        [PubPc.initHead, PubPc.waitTail] ∧
      (crowdRun RING_SIZE (crowdInit [1, 2]) raceBeforeReset).cons.pc = SubPc.storeTail) ∧
    ((crowdRun RING_SIZE (crowdInit [1, 2]) resetRace).hist.resets = 1 ∧
      (crowdRun RING_SIZE (crowdInit [1, 2]) resetRace).region.hdr.initialized = true ∧
      (crowdRun RING_SIZE (crowdInit [1, 2]) resetRace).region.hdr.head = 0 ∧
      (crowdRun RING_SIZE (crowdInit [1, 2]) resetRace).region.hdr.tail = 2 ∧
      (crowdRun RING_SIZE (crowdInit [1, 2]) resetRace).hist.published.length = 2 ∧
      (crowdRun RING_SIZE (crowdInit [1, 2]) resetRace).hist.consumed = 2 ∧
      ¬ ((crowdRun RING_SIZE (crowdInit [1, 2]) resetRace).region.hdr.tail ≤
        (crowdRun RING_SIZE (crowdInit [1, 2]) resetRace).region.hdr.head)) ∧
    (∀ (cap now : Nat) (s : System),
      s.prod.pc = PubPc.casInit → s.region.hdr.initialized = false →
      (step cap s (Action.prod now)).prod.pc = PubPc.initHead ∧
      (step cap s (Action.prod now)).hist.resets = s.hist.resets + 1 ∧
      (run cap s (prodSteps 3 now)).region.hdr.initialized = true ∧
      (run cap s (prodSteps 3 now)).region.hdr.head = 0 ∧
      (run cap s (prodSteps 3 now)).region.hdr.tail = 0 ∧
      (run cap s (prodSteps 3 now)).region.msgs = s.region.msgs ∧
      (run cap s (prodSteps 3 now)).prod.pc = loopTest s.prod.i s.prod.count ∧
      (run cap s (prodSteps 3 now)).hist.resets = s.hist.resets + 1) ∧
    (∀ (cap now : Nat) (s : System),
      s.prod.pc = PubPc.casInit → s.region.hdr.initialized = true →
      (step cap s (Action.prod now)).region = s.region ∧
      (step cap s (Action.prod now)).prod.pc = loopTest s.prod.i s.prod.count ∧
      (step cap s (Action.prod now)).hist.resets = s.hist.resets) ∧
    (∀ (cap : Nat) (counts : List Nat) (sched : List CrowdAction),
      (crowdRun cap (crowdInit counts) sched).hist.resets ≤ 1 ∧
      ((crowdRun cap (crowdInit counts) sched).hist.resets = 1 ↔
        (crowdRun cap (crowdInit counts) sched).region.hdr.initialized = true) ∧
      (∀ p ∈ (crowdRun cap (crowdInit counts) sched).prods, p.pc ≠ PubPc.casInit →
        (crowdRun cap (crowdInit counts) sched).hist.resets = 1)) := by
  refine ⟨by decide, by decide, ?_, ?_, ?_⟩
  · intro cap now s
    exact (initialize_once_successive cap 0 now []
      (by show (0 : Nat) < U64; decide)).1 s
  · intro cap now s
    exact (initialize_once_successive cap 0 now []
      (by show (0 : Nat) < U64; decide)).2.1 s
  · intro cap counts sched
    obtain ⟨h1, h2⟩ := crowd_reset_once cap counts sched
    generalize crowdRun cap (crowdInit counts) sched = c at h1 h2
    cases hi : c.region.hdr.initialized
    · rw [hi] at h1
      simp only [Bool.false_eq_true, if_false] at h1
      refine ⟨by omega, ⟨fun h => by omega, fun h => by cases h⟩, ?_⟩
      intro p hp hne
      have := h2 p hp hne
      rw [hi] at this
      cases this
    · rw [hi] at h1
      simp only [if_true] at h1
      exact ⟨by omega, ⟨fun _ => rfl, fun _ => h1⟩, fun _ _ _ => h1⟩

/-- C7, the part that holds, at the first publisher of a new region: its
compare-exchange wins and its initialisation leaves `head = tail = 0`. -/
theorem C7_reset_race_witness :
    ((init 1).prod.pc = PubPc.casInit ∧ (init 1).region.hdr.initialized = false) ∧
    ((step RING_SIZE (init 1) (Action.prod 0)).prod.pc = PubPc.initHead ∧
      (step RING_SIZE (init 1) (Action.prod 0)).hist.resets = (init 1).hist.resets + 1 ∧
      (run RING_SIZE (init 1) (prodSteps 3 0)).region.hdr.initialized = true ∧
      (run RING_SIZE (init 1) (prodSteps 3 0)).region.hdr.head = 0 ∧
      (run RING_SIZE (init 1) (prodSteps 3 0)).region.hdr.tail = 0 ∧
      (run RING_SIZE (init 1) (prodSteps 3 0)).region.msgs = (init 1).region.msgs ∧
      (run RING_SIZE (init 1) (prodSteps 3 0)).prod.pc =
        loopTest (init 1).prod.i (init 1).prod.count ∧
      (run RING_SIZE (init 1) (prodSteps 3 0)).hist.resets = (init 1).hist.resets + 1) :=
  ⟨by decide, C7_reset_race.2.2.1 RING_SIZE 0 (init 1) (by decide) (by decide)⟩

/-- C10 fails on the code at `count = 0`. The loop ends at once with no message
published and no sample collected, and the statistics code then reads `rtts[0]` of
the empty vector (line 141): the read is out of bounds and no count is reported. This
holds for every run with `count = 0` on any region. For every `count = n` with
`1 ≤ n < 2 ^ 31`, on any region and under any interleaving with the consumer, a run
that reaches the end of its loop has published exactly `n` messages, the `i`-th with
`seq = i`, has advanced `head` by `n` from its value after the initialisation, holds
`n` samples, and reports `count = n`. -/
theorem C10_report_count :
    ((init 0).prod = Producer.start 0 ∧
      (run RING_SIZE (init 0) (prodSteps 3 0)).prod.pc = PubPc.done ∧
      (run RING_SIZE (init 0) (prodSteps 3 0)).prod.rtts = [] ∧
      (run RING_SIZE (init 0) (prodSteps 3 0)).hist.published = [] ∧
      (sortSamples ((run RING_SIZE (init 0) (prodSteps 3 0)).prod.rtts.map usOfNs))[
        ((run RING_SIZE (init 0) (prodSteps 3 0)).prod.rtts.map usOfNs).length / 2]? = none ∧
      producerReport (run RING_SIZE (init 0) (prodSteps 3 0)).prod = none) ∧
    (∀ (cap : Nat) (s0 : System) (sched : List Action),
      s0.prod = Producer.start 0 → s0.region.hdr.head < U64 → prodRun sched = true →
      (run cap s0 sched).prod.pc = PubPc.done →
      (run cap s0 sched).prod.rtts = [] ∧ producerReport (run cap s0 sched).prod = none) ∧
    (∀ (cap n : Nat) (s0 : System) (sched : List Action),
      1 ≤ n → n < 2147483648 → s0.prod = Producer.start n → s0.region.hdr.head < U64 →
      prodRun sched = true → (run cap s0 sched).prod.pc = PubPc.done →
      ∃ (sent : List ShmMsg) (sm : Summary),
        (run cap s0 sched).hist.published = s0.hist.published ++ sent ∧
        sent.length = n ∧
        (∀ i, i < n → ∃ m, sent[i]? = some m ∧ m.seq = i) ∧
        (run cap s0 sched).region.hdr.head =
          (headBase s0.region.hdr.head s0.region.hdr.initialized + n) % U64 ∧
        (headBase s0.region.hdr.head s0.region.hdr.initialized + n < U64 →
          (run cap s0 sched).region.hdr.head =
            headBase s0.region.hdr.head s0.region.hdr.initialized + n) ∧
        (run cap s0 sched).prod.rtts.length = n ∧
        (run cap s0 sched).prod.i = n ∧
        producerReport (run cap s0 sched).prod = some sm ∧
        sm.count = n) := by
  refine ⟨⟨rfl, by decide⟩, ?_, ?_⟩
  · intro cap s0 sched hp hwf hs hdone
    obtain ⟨sent, _, _, _, _, _, hr, _⟩ :=
      producer_run_complete cap 0 s0 sched (by decide) hp hwf hs hdone
    have hnil : (run cap s0 sched).prod.rtts = [] := List.eq_nil_of_length_eq_zero hr
    refine ⟨hnil, ?_⟩
    rw [producerReport, hnil]
    rfl
  · intro cap n s0 sched h1 hn hp hwf hs hdone
    obtain ⟨sent, e1, e2, e3, e4, e5, hr, e7⟩ :=
      producer_run_complete cap n s0 sched hn hp hwf hs hdone
    have hne : (run cap s0 sched).prod.rtts.map usOfNs ≠ [] := by
      intro h
      have := congrArg List.length h
      simp only [List.length_map, List.length_nil] at this
      omega
    obtain ⟨sm, hsm, hcount⟩ := summarize_count _ hne
    refine ⟨sent, sm, e1, e2, e3, e4, e5, hr, e7, hsm, ?_⟩
    rw [hcount, List.length_map, hr]

/-- C10, the part that holds, at `count = 3` on a new ring of 1024 slots run to the
end of the loop: three messages, three samples, reported count 3. -/
theorem C10_report_count_witness :
    ((1 : Nat) ≤ 3 ∧ (3 : Nat) < 2147483648 ∧ (init 3).prod = Producer.start 3 ∧
      (init 3).region.hdr.head < U64 ∧ prodRun (fullRun 3) = true ∧
      (run RING_SIZE (init 3) (fullRun 3)).prod.pc = PubPc.done) ∧
    (∃ (sent : List ShmMsg) (sm : Summary),
      (run RING_SIZE (init 3) (fullRun 3)).hist.published = (init 3).hist.published ++ sent ∧
      sent.length = 3 ∧
      (∀ i, i < 3 → ∃ m, sent[i]? = some m ∧ m.seq = i) ∧
      (run RING_SIZE (init 3) (fullRun 3)).region.hdr.head =
        (headBase (init 3).region.hdr.head (init 3).region.hdr.initialized + 3) % U64 ∧
      (headBase (init 3).region.hdr.head (init 3).region.hdr.initialized + 3 < U64 →
        (run RING_SIZE (init 3) (fullRun 3)).region.hdr.head =
          headBase (init 3).region.hdr.head (init 3).region.hdr.initialized + 3) ∧
      (run RING_SIZE (init 3) (fullRun 3)).prod.rtts.length = 3 ∧
      (run RING_SIZE (init 3) (fullRun 3)).prod.i = 3 ∧
      producerReport (run RING_SIZE (init 3) (fullRun 3)).prod = some sm ∧
      sm.count = 3) :=
  ⟨⟨by decide, by decide, rfl, by decide, by decide, by decide⟩,
   C10_report_count.2.2 RING_SIZE 3 (init 3) (fullRun 3) (by decide) (by decide) rfl
     (by decide) (by decide) (by decide)⟩

end Pubsub
